import Mathlib

/-!
Verification of the `@devtin/schema-validator` v2.6.0 engine
(`dist/schema-validator.esm.js`).  The development shallowly embeds the
`Schema` node model, the transformer registry (the `String`, `Number` and
`Boolean` transformers, which suffice for the properties under study), the
recursive `parse` algorithm (`parseProperty`, `runChildren`,
`structureValidation`) and the `ValidationError` model, and proves or
refutes the stated properties about them.

Modelling conventions:
* JavaScript values are embedded as `JSValue`.  Array values are not
  modelled (no studied property needs an array input value); JS numbers are
  modelled as integers plus an explicit `nan` marker.
* Throwing is modelled with `Except JsError`.  A thrown `ValidationError`
  is `JsError.vErr`; plain `Error` objects (the unknown-property entries)
  are `JsError.plain`; runtime `TypeError`s are `JsError.typeError`.
* `ValidationError.field` holds a reference to the originating schema node;
  the embedding identifies a node by its full dotted path, so `field` is
  `Option String` (`none` when the constructor was invoked without a
  `field`, as in `runChildren` and `structureValidation`).
* The message-template interpolation (`render`) is the identity on every
  message the engine produces except the `String` enum error; messages are
  therefore stored verbatim.
* `settings.loaders` is not modelled: none of the embedded transformers
  declares `loaders`, and no studied property exercises user loaders.
* The `defaultValues` constructor option (`getDefault`) is not modelled;
  `_defaultSettings.default` is always absent, as in a `Schema` built
  without that option.
-/

namespace SchemaValidator

/-- JavaScript values, as far as the engine under study observes them. -/
inductive JSValue where
  | undef
  | null
  | bool (b : Bool)
  | num (n : Int)
  | nan
  | str (s : String)
  | obj (fields : List (String × JSValue))

namespace JSValue

/-- JavaScript truthiness of an embedded value. -/
def truthy : JSValue → Bool
  | .undef => false
  | .null => false
  | .bool b => b
  | .num n => n != 0
  | .nan => false
  | .str s => s ≠ ""
  | .obj _ => true

/-- The test `typeof v === 'object' && !Array.isArray(v)` (note that
`typeof null` is `'object'`). -/
def isObjectLike : JSValue → Bool
  | .null => true
  | .obj _ => true
  | _ => false

/-- The test that a value is a non-null object (the branch condition
`obj[prop] && typeof obj[prop] === 'object' && !Array.isArray(obj[prop])`
of `obj2dot`). -/
def isPlainObject : JSValue → Bool
  | .obj _ => true
  | _ => false

/-- Property lookup `o[k]`: a missing key reads as `undefined`, and any
non-object receiver used by the engine reads as `undefined` as well. -/
def getProp : JSValue → String → JSValue
  | .obj fields, k => ((fields.find? (fun p => p.1 == k)).map Prod.snd).getD .undef
  | _, _ => .undef

end JSValue

/-- Errors thrown by the engine.  `vErr` is `Schema~ValidationError`
(message, aggregated sub-errors, offending `value`, originating `field`);
`plain` is a bare `Error`; `typeError` is a runtime `TypeError`. -/
inductive JsError where
  | vErr (message : String) (errors : List JsError) (value : JSValue) (field : Option String)
  | plain (message : String)
  | typeError (message : String)

mutual

/-- Utils~obj2dot: converts an object's own property tree into a
dot-notation path list.  `Object.keys` of a string yields its index keys,
whose (character) values are not objects. -/
def obj2dot (v : JSValue) (parent : String) : List String :=
  match v with
  | .obj fields => obj2dotFields fields parent
  | .str s => (List.range s.length).map (fun i => parent ++ toString i)
  | _ => []

/-- Helper of `obj2dot` walking the field list of an object literal. -/
def obj2dotFields : List (String × JSValue) → String → List String
  | [], _ => []
  | (k, v) :: rest, parent =>
    (if v.isPlainObject then obj2dot v (parent ++ k ++ ".") else [parent ++ k])
      ++ obj2dotFields rest parent

end

/-- A prefix test on character lists (`String.startsWith` unfolded to its
character data, where the embedding's proofs and witnesses can compute). -/
def leadsWith : List Char → List Char → Bool
  | [], _ => true
  | _ :: _, [] => false
  | a :: as, b :: bs => a == b && leadsWith as bs

/-- Splits a character list at every occurrence of the given character
(the semantics of `String.prototype.split` with a one-character
separator). -/
def splitOnChar (c : Char) : List Char → List (List Char)
  | [] => [[]]
  | x :: xs =>
    if x == c then [] :: splitOnChar c xs
    else
      match splitOnChar c xs with
      | h :: t => (x :: h) :: t
      | [] => [[x]]

/-- `pathName.split(/\./)` as a list of strings. -/
def splitDots (s : String) : List String :=
  (splitOnChar '.' s.data).map (fun l => String.mk l)

/-- The sub-property extraction `properties.filter(^k\.).map(strip)` used
by `propertiesRestricted` (the regex `^k\.(.+)$` demands a non-empty
remainder after the dot). -/
def getSubProperties (properties : List String) (k : String) : List String :=
  properties.filterMap (fun p =>
    if leadsWith (k.data ++ ['.']) p.data ∧ k.length + 1 < p.length then
      some (String.mk (p.data.drop (k.length + 1)))
    else none)

mutual

/-- Utils~propertiesRestricted in its non-strict form (the engine always
calls it with `strict = false`).  `typeof null === 'object'`, so a `null`
receiver reaches `Object.keys(null)`, which throws a `TypeError`. -/
def propertiesRestricted : JSValue → List String → Except JsError Bool
  | .obj fields, properties => propertiesRestrictedGo fields properties
  | .null, _ => .error (.typeError "Cannot convert undefined or null to object")
  | _, _ => .ok false

/-- The `forEach(Object.keys(obj), ...)` loop of `propertiesRestricted`:
the loop breaks as soon as `valid` becomes `false`. -/
def propertiesRestrictedGo : List (String × JSValue) → List String → Except JsError Bool
  | [], _ => .ok true
  | (k, v) :: rest, properties =>
    if v.isObjectLike then
      let childProps := getSubProperties properties k
      if properties.contains k ∧ childProps.isEmpty then
        propertiesRestrictedGo rest properties
      else
        match propertiesRestricted v childProps with
        | .error e => .error e
        | .ok true => propertiesRestrictedGo rest properties
        | .ok false => .ok false
    else
      if properties.contains k then propertiesRestrictedGo rest properties
      else .ok false

end

/-- A `required`-style setting value: either a bare flag or a
`[enabled, message]` ValueError pair (Utils~castThrowable). -/
inductive ReqSetting where
  | flag (b : Bool)
  | pair (b : Bool) (msg : String)

/-- JavaScript truthiness of a `required` setting (an array is truthy even
when its first entry is `false`). -/
def ReqSetting.truthy : ReqSetting → Bool
  | .flag b => b
  | .pair _ _ => true

/-- Utils~castThrowable on a `required` setting: a two-element array is
taken as `[enabled, message]`, anything else pairs with the default
message. -/
def castThrowable : ReqSetting → String → Bool × String
  | .flag b, err => (b, err)
  | .pair b msg, _ => (b, msg)

/-- A length-constraint setting (`minlength` / `maxlength`): a bare number
or a `[number, message]` ValueError pair. -/
inductive LenSetting where
  | val (n : Nat)
  | pair (n : Nat) (msg : String)

/-- JavaScript truthiness of a length setting (`0` is falsy, an array is
truthy). -/
def LenSetting.truthy : LenSetting → Bool
  | .val n => n != 0
  | .pair _ _ => true

/-- Utils~castThrowable on a length setting. -/
def castThrowableLen : LenSetting → String → Nat × String
  | .val n, err => (n, err)
  | .pair n msg, _ => (n, msg)

/-- A `default` setting: a literal value, or a function evaluated with the
node as contextual receiver (the embedding passes the node's `fullPath`,
the only receiver datum the studied properties depend on). -/
inductive DefaultSetting where
  | value (v : JSValue)
  | fn (f : String → JSValue)

/-- Evaluation of a `default` setting at a node with the given full
path. -/
def DefaultSetting.eval : DefaultSetting → String → JSValue
  | .value v, _ => v
  | .fn f, fp => f fp

/-- A custom validator hook: returns `some e` to model a throw. -/
def Validator := JSValue → Option JsError

/-- The raw `_settings` record stored on a node (each field `none` when the
corresponding key is absent).  The `type` key is deleted by the
constructor and therefore has no field here. -/
structure RawSettings where
  required : Option ReqSetting := none
  allowNull : Option Bool := none
  defaultVal : Option DefaultSetting := none
  autoCast : Option Bool := none
  cast : Option (JSValue → JSValue) := none
  validate : Option Validator := none
  enum : Option (List String) := none
  minlength : Option LenSetting := none
  maxlength : Option LenSetting := none

/-- The JavaScript check `settings.default !== undefined`: a stored literal
`undefined` default behaves exactly like an absent one. -/
def RawSettings.defaultPresent (raw : RawSettings) : Bool :=
  match raw.defaultVal with
  | some (.value .undef) => false
  | some _ => true
  | none => false

/-- The merged view produced by the `settings` getter. -/
structure EffSettings where
  required : ReqSetting
  allowNull : Bool
  defaultVal : Option DefaultSetting
  autoCast : Bool
  cast : Option (JSValue → JSValue)
  validate : Option Validator
  enum : List String
  minlength : Option LenSetting
  maxlength : Option LenSetting

/-- `settings.default !== undefined` on the merged view. -/
def EffSettings.defaultPresent (s : EffSettings) : Bool :=
  match s.defaultVal with
  | some (.value .undef) => false
  | some _ => true
  | none => false

/-- One entry of the transformer registry (the components the embedded
transformers use; `parse` is declared by none of them). -/
structure Transformer where
  autoCastSetting : Bool := false
  enumSetting : List String := []
  cast : Option (JSValue → JSValue) := none
  validate : Option (EffSettings → String → JSValue → Except JsError Unit) := none
  parse : Option (JSValue → JSValue) := none

/-- Whitespace as recognised by `Number`'s string trimming. -/
def isWS (c : Char) : Bool :=
  c == ' ' || c == '\t' || c == '\n' || c == '\r'

/-- Helper of `digitsToNat`. -/
def digitsToNatGo : List Char → Nat → Option Nat
  | [], acc => some acc
  | c :: rest, acc =>
    if c.isDigit then digitsToNatGo rest (acc * 10 + (c.toNat - 48))
    else none

/-- Digit-sequence parsing for `Number(string)`. -/
def digitsToNat : List Char → Option Nat
  | [] => none
  | l => digitsToNatGo l 0

/-- The `Number(string)` conversion, restricted to the string shapes the
studied properties use: a blank string converts to `0`, an optional-sign
decimal integer literal to its value, anything else to `NaN`. -/
def strToNumber (s : String) : JSValue :=
  match (s.data.dropWhile isWS).reverse.dropWhile isWS |>.reverse with
  | [] => .num 0
  | '-' :: rest =>
    match digitsToNat rest with
    | some n => .num (-(n : Int))
    | none => .nan
  | '+' :: rest =>
    match digitsToNat rest with
    | some n => .num (n : Int)
    | none => .nan
  | l =>
    match digitsToNat l with
    | some n => .num (n : Int)
    | none => .nan

/-- Transformers.Number.cast: `Number(value)`. -/
def numberCast : JSValue → JSValue
  | .num n => .num n
  | .nan => .nan
  | .bool b => .num (if b then 1 else 0)
  | .null => .num 0
  | .undef => .nan
  | .str s => strToNumber s
  | .obj _ => .nan

/-- Transformers.Boolean.cast: `!!value`. -/
def booleanCast (v : JSValue) : JSValue := .bool v.truthy

/-- Transformers.String.cast returns its input unless the value owns a
`toString` method; no embedded value carries an own `toString` property,
so the cast is the identity. -/
def stringCast (v : JSValue) : JSValue := v

/-- The `minlength` clause of Transformers.String.validate (`0` and absent
settings are falsy and skip the check). -/
def checkMin (ml : Option LenSetting) (fp : String) (sv : String) : Except JsError Unit :=
  match ml with
  | none => .ok ()
  | some ml =>
    if ml.truthy then
      let p := castThrowableLen ml "Invalid minlength"
      if sv.length < p.1 then .error (.vErr p.2 [] (.str sv) (some fp)) else .ok ()
    else .ok ()

/-- The `maxlength` clause of Transformers.String.validate. -/
def checkMax (ml : Option LenSetting) (fp : String) (sv : String) : Except JsError Unit :=
  match ml with
  | none => .ok ()
  | some ml =>
    if ml.truthy then
      let p := castThrowableLen ml "Invalid maxlength"
      if sv.length > p.1 then .error (.vErr p.2 [] (.str sv) (some fp)) else .ok ()
    else .ok ()

/-- Transformers.String.validate: type check, then `enum`, `minlength` and
`maxlength` (the `regex` clause is not modelled: no studied property
declares a regex). -/
def stringValidate (s : EffSettings) (fp : String) (v : JSValue) : Except JsError Unit :=
  match v with
  | .str sv =>
    if s.enum.length > 0 ∧ ¬ s.enum.contains sv then
      .error (.vErr "Unknown enum option { value }" [] (.str sv) (some fp))
    else
      match checkMin s.minlength fp sv with
      | .error e => .error e
      | .ok _ => checkMax s.maxlength fp sv
  | _ => .error (.vErr "Invalid string" [] v (some fp))

/-- Transformers.Number.validate: `typeof value !== 'number' || isNaN`
throws (so `NaN` fails alongside non-numbers). -/
def numberValidate (fp : String) (v : JSValue) : Except JsError Unit :=
  match v with
  | .num _ => .ok ()
  | _ => .error (.vErr "Invalid number" [] v (some fp))

/-- Transformers.Boolean.validate. -/
def booleanValidate (fp : String) (v : JSValue) : Except JsError Unit :=
  match v with
  | .bool _ => .ok ()
  | _ => .error (.vErr "Invalid boolean" [] v (some fp))

/-- Transformers.String. -/
def stringTransformer : Transformer :=
  { autoCastSetting := false
    enumSetting := []
    cast := some stringCast
    validate := some (fun s fp v => stringValidate s fp v) }

/-- Transformers.Number. -/
def numberTransformer : Transformer :=
  { autoCastSetting := false
    cast := some numberCast
    validate := some (fun _ fp v => numberValidate fp v) }

/-- Transformers.Boolean. -/
def booleanTransformer : Transformer :=
  { autoCastSetting := false
    cast := some booleanCast
    validate := some (fun _ fp v => booleanValidate fp v) }

/-- The transformer registry, restricted to the three built-in types the
studied properties exercise.  Every other name is unregistered. -/
def Transformers : String → Option Transformer
  | "String" => some stringTransformer
  | "Number" => some numberTransformer
  | "Boolean" => some booleanTransformer
  | _ => none

/-- The `type` of a leaf node: a single transformer name or an ordered list
of candidate names (union type). -/
inductive TypeSpec where
  | single (t : String)
  | union (ts : List String)

/-- The constructor's `currentType = castArray(this.type)[0]`. -/
def TypeSpec.firstType : TypeSpec → Option String
  | .single t => some t
  | .union ts => ts.head?

/-- A constructed schema node: its property name, inferred type, stored
`_settings`, children (empty for a leaf) and the root-level `cast` /
`validate` hooks passed as constructor options. -/
inductive SchemaNode where
  | mk (name : String) (tp : TypeSpec) (raw : RawSettings) (children : List SchemaNode)
      (rcast : Option (JSValue → JSValue)) (rvalidate : Option Validator)

/-- The node's property name. -/
def SchemaNode.name : SchemaNode → String
  | .mk n _ _ _ _ _ => n

/-- The node's type. -/
def SchemaNode.tp : SchemaNode → TypeSpec
  | .mk _ t _ _ _ _ => t

/-- The node's stored `_settings`. -/
def SchemaNode.raw : SchemaNode → RawSettings
  | .mk _ _ r _ _ _ => r

/-- The node's children. -/
def SchemaNode.children : SchemaNode → List SchemaNode
  | .mk _ _ _ cs _ _ => cs

/-- The node's root-level cast hook (`this._cast`). -/
def SchemaNode.rcast : SchemaNode → Option (JSValue → JSValue)
  | .mk _ _ _ _ rc _ => rc

/-- The node's root-level validate hook (`this._validate`). -/
def SchemaNode.rvalidate : SchemaNode → Option Validator
  | .mk _ _ _ _ _ rv => rv

/-- The `hasChildren` getter. -/
def SchemaNode.hasChildren (n : SchemaNode) : Bool := !n.children.isEmpty

/-- The `fullPath` getter:
`(this.parent && this.parent.fullPath ? parent.fullPath + '.' : '') + name`
expressed over the parent's full path (`none` when the node has no
parent). -/
def fullPathOf (parentFullPath : Option String) (name : String) : String :=
  (match parentFullPath with
   | some p => if p ≠ "" then p ++ "." else ""
   | none => "") ++ name

/-- The `settings` getter: built-in defaults, overridden by the current
transformer's declared settings for a leaf with a registered current type,
overridden by the node's `_settings`. -/
def effSettings (raw : RawSettings) (hasChildren : Bool) (currentType : Option String) : EffSettings :=
  let tr? : Option Transformer := if hasChildren then none else currentType.bind Transformers
  { required := raw.required.getD (.flag true)
    allowNull := raw.allowNull.getD false
    defaultVal := raw.defaultVal
    autoCast := raw.autoCast.getD (match tr? with | some tr => tr.autoCastSetting | none => false)
    cast := raw.cast
    validate := raw.validate
    enum := raw.enum.getD (match tr? with | some tr => tr.enumSetting | none => [])
    minlength := raw.minlength
    maxlength := raw.maxlength }

/-- The node's merged settings with the given current type. -/
def SchemaNode.settingsAt (n : SchemaNode) (currentType : Option String) : EffSettings :=
  effSettings n.raw n.hasChildren currentType

/-- The `ownPaths` getter: immediate children's names. -/
def SchemaNode.ownPaths (n : SchemaNode) : List String := n.children.map SchemaNode.name

mutual

/-- The `paths` getter: all leaf dotted paths, each child path prefixed
with the node's own name when that name is non-empty. -/
def SchemaNode.paths : SchemaNode → List String
  | .mk name _ _ [] _ _ => [name]
  | .mk name _ _ (c :: cs) _ _ => pathsList name (c :: cs)

/-- Helper of `SchemaNode.paths` folding over the children. -/
def pathsList : String → List SchemaNode → List String
  | _, [] => []
  | pn, c :: rest =>
    (SchemaNode.paths c).map (fun p => (if pn ≠ "" then pn ++ "." else "") ++ p)
      ++ pathsList pn rest

end

/-- The `hasField` check. -/
def SchemaNode.hasField (n : SchemaNode) (fieldName : String) : Bool :=
  n.paths.contains fieldName

mutual

/-- Schema.schemaAtPath: destructures `pathName.split(/\./)` as
`[path, rest]` — only the first two segments are ever consulted — finds the
first child whose name is `path`, and recurses with `rest` when `rest` is
truthy.  When no child matches and `rest` is truthy, the call dereferences
`undefined` and throws a `TypeError`. -/
def schemaAtPath : SchemaNode → String → Except JsError (Option SchemaNode)
  | .mk _ _ _ children _ _, pathName =>
    let parts := splitDots pathName
    let path := parts.headD ""
    let restTruthy : Bool := match parts[1]? with
      | some r => r != ""
      | none => false
    match restTruthy with
    | true =>
      match (schemaAtPathList children).find? (fun p => p.1 == path) with
      | some (_, f) => f ((parts[1]?).getD "")
      | none => .error (.typeError "Cannot read properties of undefined")
    | false => .ok (children.find? (fun c => c.name == path))

/-- Helper of `schemaAtPath` exposing each child's recursive lookup. -/
def schemaAtPathList : List SchemaNode → List (String × (String → Except JsError (Option SchemaNode)))
  | [] => []
  | c :: rest => (c.name, fun p => schemaAtPath c p) :: schemaAtPathList rest

end

/-- Schema.structureValidation: nothing to check for a falsy input or a
leaf; otherwise a failed `propertiesRestricted` check throws an
`Invalid object schema` ValidationError whose `errors` hold one plain
`Error` per dotted input path not found among the node's `paths`, and
which carries no `field`. -/
def structureValidation (node : SchemaNode) (obj : JSValue) : Except JsError Unit :=
  if ¬ obj.truthy ∨ node.children.isEmpty then .ok ()
  else
    match propertiesRestricted obj node.ownPaths with
    | .error e => .error e
    | .ok true => .ok ()
    | .ok false =>
      let unknownFields := ((obj2dot obj "").filter (fun f => ¬ node.hasField f)).map
        (fun f => JsError.plain ("Unknown property " ++ f))
      .error (.vErr "Invalid object schema" unknownFields obj none)

/-- The value tests `v === undefined` and `v === null`. -/
def JSValue.isUndef : JSValue → Bool
  | .undef => true
  | _ => false

/-- The `v === null` test. -/
def JSValue.isNull : JSValue → Bool
  | .null => true
  | _ => false

/-- The leaf pipeline of Schema.parseProperty for one registered type
name, after the `allowNull` short-circuit: transformer lookup, default
substitution, required check, node-level cast, transformer cast under
`autoCast`, transformer validate, node-level validate, transformer
parse. -/
def parseSingle (pp : Option String) (node : SchemaNode) (t : String) (v : JSValue) :
    Except JsError JSValue :=
  let fp := fullPathOf pp node.name
  match Transformers t with
  | none => .error (.vErr ("Don't know how to resolve " ++ t) [] .undef (some fp))
  | some tr =>
    let s := node.settingsAt (some t)
    let v := if s.defaultPresent ∧ v.isUndef then (s.defaultVal.getD (.value .undef)).eval fp else v
    if v.isUndef ∧ ¬ s.required.truthy then .ok .undef
    else
      let reqThrow : Option JsError :=
        if v.isUndef ∧ s.required.truthy then
          let p := castThrowable s.required ("Property " ++ fp ++ " is required")
          if p.1 then some (.vErr p.2 [] .undef (some fp)) else none
        else none
      match reqThrow with
      | some e => .error e
      | none =>
        let v1 := match s.cast with
          | some c => c v
          | none => v
        let v2 := if s.autoCast then (tr.cast.getD id) v1 else v1
        match (match tr.validate with | some tv => tv s fp v2 | none => .ok ()) with
        | .error e => .error e
        | .ok _ =>
          match (match s.validate with | some f => f v2 | none => none) with
          | some e => .error e
          | none => .ok ((tr.parse.getD id) v2)

/-- Schema.parseProperty entered with a single (non-array) type: the
`allowNull` short-circuit, then the leaf pipeline. -/
def parsePropertyOne (pp : Option String) (node : SchemaNode) (t : String) (v : JSValue) :
    Except JsError JSValue :=
  if v.isNull ∧ (node.settingsAt (some t)).allowNull then .ok v
  else parseSingle pp node t v

/-- The union-type trial loop of Schema.parseProperty: `forEach` over the
candidates with the `parsed` / `result` bookkeeping, breaking on the first
candidate that does not throw. -/
def tryTypes (pp : Option String) (node : SchemaNode) (v : JSValue) :
    List String → Bool × Option JSValue → Bool × Option JSValue
  | [], st => st
  | t :: rest, st =>
    match parsePropertyOne pp node t v with
    | .ok r => (true, some r)
    | .error _ => tryTypes pp node v rest st

/-- Schema.parseProperty. -/
def parseProperty (pp : Option String) (node : SchemaNode) (tp : TypeSpec) (v : JSValue) :
    Except JsError JSValue :=
  match tp with
  | .single t => parsePropertyOne pp node t v
  | .union ts =>
    if v.isNull ∧ (node.settingsAt tp.firstType).allowNull then .ok v
    else
      match tryTypes pp node v ts (false, none) with
      | (true, r) => .ok (r.getD .undef)
      | (false, _) =>
        .error (.vErr "Could not resolve given value type" [] .undef
          (some (fullPathOf pp node.name)))

/-- The error-trapper of Schema.runChildren: a caught `ValidationError`
with a non-empty `errors` list contributes its sub-errors, any other
caught error contributes itself. -/
def sandboxFlatten (e : JsError) : List JsError :=
  match e with
  | .vErr m errs v f => if errs.isEmpty then [.vErr m errs v f] else errs
  | e => [e]

/-- `Object.assign(resultingObject, { [name]: val })`: replace in place or
append. -/
def upsert : List (String × JSValue) → String → JSValue → List (String × JSValue)
  | [], k, v => [(k, v)]
  | (k', v') :: rest, k, v =>
    if k' = k then (k, v) :: rest else (k', v') :: upsert rest k v

/-- The `pathName.replace(/\..*$/)` call of Schema.runChildren: the
replacement argument is missing, so a match is substituted with the string
`"undefined"`; a dot-free name is returned unchanged. -/
def stripDotted (s : String) : String :=
  match splitDots s with
  | [x] => x
  | x :: _ => x ++ "undefined"
  | [] => s

/-- The `ownPaths.forEach` loop of Schema.runChildren over the child parse
table: look the child up by its (stripped) name, extract the input
property, run the child parse inside the error trapper, and keep defined
results. -/
def runChildrenCore (table : List (String × SchemaNode × (JSValue → Except JsError JSValue)))
    (obj : JSValue) :
    List String → List (String × JSValue) → List JsError →
      Except JsError (List (String × JSValue) × List JsError)
  | [], acc, errs => .ok (acc, errs)
  | n :: rest, acc, errs =>
    match table.find? (fun p => p.1 == stripDotted n) with
    | none => .error (.typeError "Cannot read properties of undefined")
    | some (cname, _, pf) =>
      let input := obj.getProp cname
      match pf input with
      | .ok val => runChildrenCore table obj rest (if val.isUndef then acc else upsert acc cname val) errs
      | .error e => runChildrenCore table obj rest acc (errs ++ sandboxFlatten e)

/-- Schema.runChildren: early `undefined` return for an optional absent
object, structural validation and every child parse inside the error
trapper, then either the aggregated `Data is not valid` ValidationError
(which carries neither a `value` nor a `field`) or the assembled
object. -/
def runChildren (node : SchemaNode)
    (table : List (String × SchemaNode × (JSValue → Except JsError JSValue)))
    (obj : JSValue) : Except JsError JSValue :=
  if ¬ (node.settingsAt none).required.truthy ∧ obj.isUndef then .ok .undef
  else
    let structErrs := match structureValidation node obj with
      | .ok _ => []
      | .error e => sandboxFlatten e
    match runChildrenCore table obj node.ownPaths [] [] with
    | .error e => .error e
    | .ok (fields, errs) =>
      let errors := structErrs ++ errs
      if errors.isEmpty then .ok (.obj fields)
      else .error (.vErr "Data is not valid" errors .undef none)

mutual

/-- Schema.parse: a nested node runs its children, a leaf runs
`parseProperty` on its type; at the root (no parent) the node-level
`cast` and `validate` hooks then run on the resolved value. -/
def parseNode : Option String → SchemaNode → JSValue → Except JsError JSValue
  | pp, .mk name tp raw children rcast rvalidate, v =>
    let fp := fullPathOf pp name
    let main : Except JsError JSValue :=
      if children.isEmpty then
        parseProperty pp (.mk name tp raw children rcast rvalidate) tp v
      else
        runChildren (.mk name tp raw children rcast rvalidate)
          (parseNodeList (some fp) children) v
    match pp with
    | some _ => main
    | none =>
      match main with
      | .error e => .error e
      | .ok v1 =>
        let v2 := match rcast with
          | some c => c v1
          | none => v1
        match (match rvalidate with | some f => f v2 | none => none) with
        | some e => .error e
        | none => .ok v2

/-- The child parse table: each child's name paired with its node and its
recursive `parse`, the children's parent path being the enclosing node's
full path. -/
def parseNodeList : Option String → List SchemaNode → List (String × SchemaNode × (JSValue → Except JsError JSValue))
  | _, [] => []
  | pp, c :: rest => (c.name, c, fun v => parseNode pp c v) :: parseNodeList pp rest

end

/-- The public `schema.parse(value)` entry point (a root node has no
parent). -/
def Schema.parse (node : SchemaNode) (v : JSValue) : Except JsError JSValue :=
  parseNode none node v

/-- A declarative schema description, as classified by `Schema.guessType`
and `Schema.isNested`: a bare type reference (or array of references), a
settings object carrying a `type` key, or a nested plain mapping without a
`type` key. -/
inductive SchemaDesc where
  | typeRef (tp : TypeSpec)
  | settingsObj (tp : TypeSpec) (raw : RawSettings)
  | nested (props : List (String × SchemaDesc))

/-- The construction-time conflict check
`settings.default !== undefined && settings.required`, evaluated on the
merged settings with `currentType = castArray(type)[0]`. -/
def constructCheck (pp : Option String) (node : SchemaNode) : Except String SchemaNode :=
  let s := node.settingsAt node.tp.firstType
  if s.defaultPresent ∧ s.required.truthy then
    .error ("Remove either the 'required' or the 'default' option for property "
      ++ fullPathOf pp node.name ++ ".")
  else .ok node

mutual

/-- The Schema constructor (without the unmodelled `defaultValues`, root
`cast` / `validate` and `settings` options): a nested description builds
one child per property; a leaf stores its settings with
`required: schema.default === undefined` inserted before the declared
settings, and the required/default conflict aborts construction. -/
def construct (pp : Option String) (name : String) : SchemaDesc → Except String SchemaNode
  | .typeRef tp => constructCheck pp (.mk name tp {} [] none none)
  | .settingsObj tp raw =>
    let raw' := { raw with
      required := raw.required.or (some (.flag (!raw.defaultPresent))) }
    constructCheck pp (.mk name tp raw' [] none none)
  | .nested props =>
    match constructList (some (fullPathOf pp name)) props with
    | .error e => .error e
    | .ok children => constructCheck pp (.mk name (.single "Object") {} children none none)

/-- Helper of `construct` building the children of a nested node in
property order. -/
def constructList (pp : Option String) : List (String × SchemaDesc) → Except String (List SchemaNode)
  | [] => .ok []
  | (k, d) :: rest =>
    match construct pp k d with
    | .error e => .error e
    | .ok c =>
      match constructList pp rest with
      | .error e => .error e
      | .ok cs => .ok (c :: cs)

end

/-- The round-trip example schema of the specification:
`{ name: String, age: { type: Number, required: false }, address: { city: String, zip: Number } }`. -/
def roundTripDesc : SchemaDesc :=
  .nested
    [("name", .typeRef (.single "String")),
     ("age", .settingsObj (.single "Number") { required := some (.flag false) }),
     ("address", .nested
        [("city", .typeRef (.single "String")),
         ("zip", .typeRef (.single "Number"))])]

/-- The round-trip example input
`{ name: "Ann", address: { city: "Miami", zip: 33129 } }`. -/
def roundTripInput : JSValue :=
  .obj [("name", .str "Ann"),
        ("address", .obj [("city", .str "Miami"), ("zip", .num 33129)])]

/-- A three-level nested schema `{ a: { b: { c: String } } }` used to probe
`schemaAtPath`. -/
def deepSchema : SchemaNode :=
  .mk "" (.single "Object") {}
    [.mk "a" (.single "Object") {}
      [.mk "b" (.single "Object") {}
        [.mk "c" (.single "String") {} [] none none] none none] none none] none none

end SchemaValidator

namespace SchemaValidator

/-- C8, counterexample.  The claim states `fullPath = parent.fullPath + '.'
+ name` for every node with a parent.  A child of the root fails it: the
root's `fullPath` is the empty string, which is falsy, so the child's
`fullPath` is bare `"a"`, not `".a"`.  The same surfaces in a parse: the
required-field message for the child of the root reads `Property a is
required`, not `Property .a is required`. -/
theorem claim_C8_counterexample :
    fullPathOf (some (fullPathOf none "")) "a" = "a"
    ∧ fullPathOf (some (fullPathOf none "")) "a" ≠ fullPathOf none "" ++ "." ++ "a"
    ∧ Schema.parse
        (.mk "" (.single "Object") {} [.mk "a" (.single "String") {} [] none none] none none)
        (.obj [])
      = .error (.vErr "Data is not valid"
          [.vErr "Property a is required" [] .undef (some "a")] .undef none) := by
  refine ⟨rfl, ?_, rfl⟩
  decide

/-- C8, amended.  A node's `fullPath` is `parent.fullPath + '.' + name`
when the node has a parent whose own `fullPath` is non-empty; when the
node has no parent, or its parent's `fullPath` is the empty string (the
usual unnamed root), `fullPath` is just `name`. -/
theorem claim_C8 (p : Option String) (nm : String) :
    fullPathOf p nm = match p with
      | some pf => if pf = "" then nm else pf ++ "." ++ nm
      | none => nm := by
  cases p with
  | none => rfl
  | some pf =>
    by_cases h : pf = ""
    · subst h
      show ("" : String) ++ nm = _
      simp
    · simp [fullPathOf, h]

/-- C9.  `schemaAtPath` destructures `pathName.split(/\./)` as
`[path, rest]`, so it consults at most the first two dot segments: on the
schema `{ a: { b: { c: String } } }`, the query `"a.b.c"` returns the node
at `a.b` (the nested node named `b`, which still has the `c` child) rather
than the requested descendant at `a.b.c`; and when the first segment
matches no child while a second segment is present, the recursive call
dereferences `undefined` and throws a `TypeError` instead of returning
undefined.  A failure at the last consulted level does return
undefined. -/
theorem claim_C9 :
    schemaAtPath deepSchema "a.b.c"
      = .ok (some (.mk "b" (.single "Object") {}
          [.mk "c" (.single "String") {} [] none none] none none))
    ∧ schemaAtPath deepSchema "x.y"
      = .error (.typeError "Cannot read properties of undefined")
    ∧ schemaAtPath deepSchema "a.q" = .ok none :=
  ⟨rfl, rfl, rfl⟩

/-- C10, counterexample.  The claim states the required/default conflict
fires only when `required: true` is set explicitly.  But the conflict
check tests JavaScript truthiness of the `required` setting, and an
`[enabled, message]` array is truthy even when `enabled` is `false`: a
node declaring `default` together with `required: [false, "custom"]`
aborts construction although `required: true` was never set. -/
theorem claim_C10_counterexample :
    construct none "p" (.settingsObj (.single "Number")
      { required := some (.pair false "custom"), defaultVal := some (.value (.num 1)) })
      = .error "Remove either the 'required' or the 'default' option for property p." := rfl

/-- C10, amended.  When a leaf settings object declares a `default` (other
than a literal `undefined`) and no explicit `required`, the stored
settings gain `required: false`, construction succeeds, and the node's
effective `required` is `false`; the construction-time conflict fires
exactly when an explicitly set `required` is truthy (`true`, or any
`[enabled, message]` array — even with `enabled` false) alongside the
default, and construction succeeds when the explicit `required` is the
flag `false`. -/
theorem claim_C10 (pp : Option String) (nm : String) (tp : TypeSpec) (raw : RawSettings)
    (hd : raw.defaultPresent = true) :
    (raw.required = none →
      construct pp nm (.settingsObj tp raw)
        = .ok (.mk nm tp { raw with required := some (.flag false) } [] none none)
      ∧ ((SchemaNode.mk nm tp { raw with required := some (.flag false) } [] none none).settingsAt
          tp.firstType).required = .flag false)
    ∧ (∀ r, raw.required = some r → r.truthy = true →
      construct pp nm (.settingsObj tp raw)
        = .error ("Remove either the 'required' or the 'default' option for property "
            ++ fullPathOf pp nm ++ "."))
    ∧ (∀ r, raw.required = some r → r.truthy = false →
      construct pp nm (.settingsObj tp raw) = .ok (.mk nm tp raw [] none none)) := by
  have hde : ∀ (raw' : RawSettings) (hc : Bool) (ct : Option String),
      (effSettings raw' hc ct).defaultPresent = raw'.defaultPresent := by
    intro raw' hc ct
    cases h : raw'.defaultVal with
    | none => simp [effSettings, EffSettings.defaultPresent, RawSettings.defaultPresent, h]
    | some d =>
      cases d with
      | value v =>
        cases v <;>
          simp [effSettings, EffSettings.defaultPresent, RawSettings.defaultPresent, h]
      | fn f => simp [effSettings, EffSettings.defaultPresent, RawSettings.defaultPresent, h]
  refine ⟨?_, ?_, ?_⟩
  · intro hr
    have h1 : raw.required.or (some (.flag (!raw.defaultPresent))) = some (.flag false) := by
      rw [hr, hd]
      rfl
    constructor
    · simp only [construct, h1, constructCheck, SchemaNode.settingsAt, SchemaNode.raw,
        SchemaNode.hasChildren, SchemaNode.children, SchemaNode.name, SchemaNode.tp]
      simp [effSettings, ReqSetting.truthy]
    · simp [SchemaNode.settingsAt, SchemaNode.raw, SchemaNode.hasChildren,
        SchemaNode.children, effSettings]
  · intro r hr htr
    have h1 : raw.required.or (some (.flag (!raw.defaultPresent))) = some r := by
      rw [hr]
      rfl
    simp only [construct, h1, constructCheck, SchemaNode.settingsAt, SchemaNode.raw,
      SchemaNode.hasChildren, SchemaNode.children, SchemaNode.name, SchemaNode.tp]
    have h2 : (effSettings { raw with required := some r } false tp.firstType).defaultPresent
        = true := by
      rw [hde]
      rw [show ({ raw with required := some r } : RawSettings).defaultPresent
        = raw.defaultPresent from rfl, hd]
    have h3 : (effSettings { raw with required := some r } false tp.firstType).required = r := by
      simp [effSettings]
    simp [h2, h3, htr]
  · intro r hr htr
    have h0 : ({ raw with required := raw.required.or (some (.flag (!raw.defaultPresent))) }
        : RawSettings) = raw := by
      cases raw
      simp_all [Option.or]
    simp only [construct, h0]
    have h3 : (effSettings raw false tp.firstType).required = r := by
      simp [effSettings, hr]
    simp [constructCheck, SchemaNode.settingsAt, SchemaNode.raw, SchemaNode.children,
      SchemaNode.hasChildren, SchemaNode.name, SchemaNode.tp, h3, htr]

/-- C10, witness: a `Number` leaf declaring `default: 2` and no explicit
`required` constructs successfully with effective `required = false`. -/
theorem claim_C10_witness :
    construct none "q" (.settingsObj (.single "Number")
      { defaultVal := some (.value (.num 2)) })
      = .ok (.mk "q" (.single "Number")
          { defaultVal := some (.value (.num 2)), required := some (.flag false) } [] none none) :=
  ((claim_C10 none "q" (.single "Number") { defaultVal := some (.value (.num 2)) } rfl).1 rfl).1

/-- The leaf stage order exactly as the specification sentence states it:
node-level cast unconditionally, then the transformer's cast only when
`autoCast` is enabled, then the transformer's validate, then the
node-level validate, and finally the transformer's parse, whose result is
returned. -/
def specLeafStageOrder (tr : Transformer) (s : EffSettings) (fp : String) (v : JSValue) :
    Except JsError JSValue :=
  let afterNodeCast := match s.cast with
    | some c => c v
    | none => v
  let afterAutoCast := if s.autoCast then (tr.cast.getD id) afterNodeCast else afterNodeCast
  match (match tr.validate with | some tv => tv s fp afterAutoCast | none => .ok ()) with
  | .error e => .error e
  | .ok _ =>
    match (match s.validate with | some f => f afterAutoCast | none => none) with
    | some e => .error e
    | none => .ok ((tr.parse.getD id) afterAutoCast)

/-- C3.  For a leaf with a registered single type and a value that is not
undefined (so the default and required stages pass it through unchanged;
the loader stage is empty for the embedded transformers), `parse` runs
exactly the claimed stage order — apart from the `allowNull`
short-circuit, which the claim's null stage already precedes. -/
theorem claim_C3 (pp : Option String) (node : SchemaNode) (t : String) (tr : Transformer)
    (v : JSValue) (ht : Transformers t = some tr) (hv : v.isUndef = false) :
    parseProperty pp node (.single t) v
      = if v.isNull ∧ (node.settingsAt (some t)).allowNull then .ok v
        else specLeafStageOrder tr (node.settingsAt (some t)) (fullPathOf pp node.name) v := by
  by_cases hn : v.isNull ∧ (node.settingsAt (some t)).allowNull
  · simp [parseProperty, parsePropertyOne, hn]
  · simp only [parseProperty, parsePropertyOne, if_neg hn, parseSingle, ht,
      specLeafStageOrder]
    simp [hv]

/-- C3, witness: a `Number` leaf with `autoCast: true` on the string
`"5"` runs the claimed stage order. -/
theorem claim_C3_witness :
    parseProperty none (SchemaNode.mk "w" (.single "Number") { autoCast := some true } [] none none)
        (.single "Number") (.str "5")
      = specLeafStageOrder numberTransformer
          ((SchemaNode.mk "w" (.single "Number") { autoCast := some true } [] none none).settingsAt
            (some "Number")) "w" (.str "5") := by
  have h := claim_C3 none
    (SchemaNode.mk "w" (.single "Number") { autoCast := some true } [] none none)
    "Number" numberTransformer (.str "5") rfl rfl
  simpa [SchemaNode.settingsAt, JSValue.isNull] using h

/-- C4.  A leaf parse of `undefined` with a registered single type:
(0) the leaf pipeline is entered (undefined is not null, so `allowNull`
does not interfere); (1) a configured default is substituted — a literal
value directly, a function by evaluating it with the node (its full path)
as receiver — after which parsing proceeds exactly as if that value had
been supplied; with no default, (2) a non-required node returns undefined,
(3) a required node (flag `true`) throws a required error whose message
names the node's full dotted path, (4) a `[true, msg]` pair throws with
the customized message, and (5) a `[false, msg]` pair disables the
required throw and the pipeline proceeds on the undefined value. -/
theorem claim_C4 (pp : Option String) (node : SchemaNode) (t : String) (tr : Transformer)
    (ht : Transformers t = some tr) :
    (parseProperty pp node (.single t) .undef = parseSingle pp node t .undef)
    ∧ (parseSingle pp node t .undef
        = parseSingle pp node t
            (if (node.settingsAt (some t)).defaultPresent then
              ((node.settingsAt (some t)).defaultVal.getD (.value .undef)).eval
                (fullPathOf pp node.name)
            else .undef))
    ∧ ((node.settingsAt (some t)).defaultPresent = false →
        (node.settingsAt (some t)).required.truthy = false →
        parseSingle pp node t .undef = .ok .undef)
    ∧ ((node.settingsAt (some t)).defaultPresent = false →
        (node.settingsAt (some t)).required = .flag true →
        parseSingle pp node t .undef
          = .error (.vErr ("Property " ++ fullPathOf pp node.name ++ " is required") [] .undef
              (some (fullPathOf pp node.name))))
    ∧ (∀ msg, (node.settingsAt (some t)).defaultPresent = false →
        (node.settingsAt (some t)).required = .pair true msg →
        parseSingle pp node t .undef
          = .error (.vErr msg [] .undef (some (fullPathOf pp node.name))))
    ∧ (∀ msg, (node.settingsAt (some t)).defaultPresent = false →
        (node.settingsAt (some t)).required = .pair false msg →
        parseSingle pp node t .undef
          = specLeafStageOrder tr (node.settingsAt (some t)) (fullPathOf pp node.name) .undef) := by
  refine ⟨rfl, ?_, ?_, ?_, ?_, ?_⟩
  · by_cases hdp : (node.settingsAt (some t)).defaultPresent
    · simp only [if_pos hdp]
      by_cases hu :
          (((node.settingsAt (some t)).defaultVal.getD (.value .undef)).eval
            (fullPathOf pp node.name)).isUndef
      · simp [parseSingle, ht, hdp, hu, JSValue.isUndef]
      · simp [parseSingle, ht, hdp, hu, JSValue.isUndef]
    · simp [if_neg hdp]
  · intro hdp hreq
    simp [parseSingle, ht, hdp, hreq, JSValue.isUndef]
  · intro hdp hreq
    simp [parseSingle, ht, hdp, hreq, ReqSetting.truthy, castThrowable, JSValue.isUndef]
  · intro msg hdp hreq
    simp [parseSingle, ht, hdp, hreq, ReqSetting.truthy, castThrowable, JSValue.isUndef]
  · intro msg hdp hreq
    simp [parseSingle, ht, hdp, hreq, ReqSetting.truthy, castThrowable, JSValue.isUndef,
      specLeafStageOrder]

/-- C4, witness: a bare required `Number` leaf named `w` under the root
parses `undefined` to the required error naming its full path `w`. -/
theorem claim_C4_witness :
    parseSingle none (SchemaNode.mk "w" (.single "Number") {} [] none none) "Number" .undef
      = .error (.vErr "Property w is required" [] .undef (some "w")) :=
  (claim_C4 none (SchemaNode.mk "w" (.single "Number") {} [] none none) "Number"
    numberTransformer rfl).2.2.2.1 rfl rfl

/-- Union resolution as the specification sentence states it: try each
candidate's full leaf pipeline in order, return the first non-throwing
result, discard errors of failed attempts, and throw the single summary
error when every candidate has failed. -/
def specFirstMatch (pp : Option String) (node : SchemaNode) (v : JSValue) :
    List String → Except JsError JSValue
  | [] => .error (.vErr "Could not resolve given value type" [] .undef
      (some (fullPathOf pp node.name)))
  | t :: rest =>
    match parsePropertyOne pp node t v with
    | .ok r => .ok r
    | .error _ => specFirstMatch pp node v rest

/-- The `allowNull` setting does not depend on the current candidate type
(no transformer declares `allowNull`). -/
theorem settingsAt_allowNull (node : SchemaNode) (ct ct' : Option String) :
    (node.settingsAt ct).allowNull = (node.settingsAt ct').allowNull := rfl

/-- C2, amended.  For a union-typed leaf, `parse` returns the result of the
first candidate whose pipeline does not throw, discards errors of failed
attempts, and throws the single summary `Could not resolve given value
type` error (carrying no sub-errors) when every candidate fails — except
in the corner where the candidate list is empty, the value is `null` and
`allowNull` is set, where `null` is returned without the summary
error. -/
theorem claim_C2 (pp : Option String) (node : SchemaNode) (ts : List String) (v : JSValue)
    (h : ts = [] → ¬(v.isNull ∧ (node.settingsAt (TypeSpec.union ts).firstType).allowNull)) :
    parseProperty pp node (.union ts) v = specFirstMatch pp node v ts := by
  have core : ∀ l : List String,
      (match tryTypes pp node v l (false, none) with
        | (true, r) => Except.ok (r.getD .undef)
        | (false, _) =>
          Except.error (.vErr "Could not resolve given value type" [] .undef
            (some (fullPathOf pp node.name))))
      = specFirstMatch pp node v l := by
    intro l
    induction l with
    | nil => rfl
    | cons t rest ih =>
      simp only [tryTypes, specFirstMatch]
      cases hp : parsePropertyOne pp node t v with
      | ok r => rfl
      | error e => exact ih
  cases ts with
  | nil =>
    have hn := h rfl
    simp only [parseProperty, if_neg hn]
    exact core []
  | cons t rest =>
    by_cases hn : v.isNull ∧ (node.settingsAt (TypeSpec.union (t :: rest)).firstType).allowNull
    · simp only [parseProperty, if_pos hn]
      have : parsePropertyOne pp node t v = .ok v := by
        have ha : (node.settingsAt (some t)).allowNull
            = (node.settingsAt (TypeSpec.union (t :: rest)).firstType).allowNull := rfl
        simp only [parsePropertyOne]
        rw [if_pos]
        exact ⟨hn.1, by rw [ha]; exact hn.2⟩
      simp [specFirstMatch, this]
    · simp only [parseProperty, if_neg hn]
      exact core (t :: rest)

/-- C2, counterexample.  A leaf whose type is the empty candidate list with
`allowNull: true` parsing `null`: every candidate (vacuously) fails, yet
no summary error is thrown — `null` is returned, while the claimed
behaviour demands the single `Could not resolve given value type`
error. -/
theorem claim_C2_counterexample :
    parseProperty none
        (SchemaNode.mk "u" (.union []) { allowNull := some true } [] none none)
        (.union []) .null
      = .ok .null
    ∧ specFirstMatch none
        (SchemaNode.mk "u" (.union []) { allowNull := some true } [] none none) .null []
      = .error (.vErr "Could not resolve given value type" [] .undef (some "u")) :=
  ⟨rfl, rfl⟩

/-- C2, witness: the specification's `[String, Number]` example.  `"abc"`
resolves via the first candidate, `42` via the second, and `{}` (matching
neither) yields the single summary error, not an aggregate. -/
theorem claim_C2_witness :
    parseProperty none (SchemaNode.mk "u" (.union ["String", "Number"]) {} [] none none)
        (.union ["String", "Number"]) (.str "abc")
      = specFirstMatch none (SchemaNode.mk "u" (.union ["String", "Number"]) {} [] none none)
          (.str "abc") ["String", "Number"]
    ∧ parseProperty none (SchemaNode.mk "u" (.union ["String", "Number"]) {} [] none none)
        (.union ["String", "Number"]) (.num 42)
      = specFirstMatch none (SchemaNode.mk "u" (.union ["String", "Number"]) {} [] none none)
          (.num 42) ["String", "Number"]
    ∧ parseProperty none (SchemaNode.mk "u" (.union ["String", "Number"]) {} [] none none)
        (.union ["String", "Number"]) (.obj [])
      = specFirstMatch none (SchemaNode.mk "u" (.union ["String", "Number"]) {} [] none none)
          (.obj []) ["String", "Number"]
    ∧ parseProperty none (SchemaNode.mk "u" (.union ["String", "Number"]) {} [] none none)
        (.union ["String", "Number"]) (.str "abc") = .ok (.str "abc")
    ∧ parseProperty none (SchemaNode.mk "u" (.union ["String", "Number"]) {} [] none none)
        (.union ["String", "Number"]) (.num 42) = .ok (.num 42)
    ∧ parseProperty none (SchemaNode.mk "u" (.union ["String", "Number"]) {} [] none none)
        (.union ["String", "Number"]) (.obj [])
      = .error (.vErr "Could not resolve given value type" [] .undef (some "u")) := by
  refine ⟨?_, ?_, ?_, rfl, rfl, rfl⟩
  · exact claim_C2 none _ _ _ (by simp)
  · exact claim_C2 none _ _ _ (by simp)
  · exact claim_C2 none _ _ _ (by simp)

/-- Every error of the `minlength` clause carries the validated string and
the node path. -/
theorem checkMin_error (ml : Option LenSetting) (fp sv : String) (e : JsError)
    (h : checkMin ml fp sv = .error e) : ∃ m, e = .vErr m [] (.str sv) (some fp) := by
  cases ml with
  | none => simp [checkMin] at h
  | some l =>
    simp only [checkMin] at h
    split at h
    · split at h
      · exact ⟨(castThrowableLen l "Invalid minlength").2, by injection h with h'; exact h'.symm⟩
      · simp at h
    · simp at h

/-- Every error of the `maxlength` clause carries the validated string and
the node path. -/
theorem checkMax_error (ml : Option LenSetting) (fp sv : String) (e : JsError)
    (h : checkMax ml fp sv = .error e) : ∃ m, e = .vErr m [] (.str sv) (some fp) := by
  cases ml with
  | none => simp [checkMax] at h
  | some l =>
    simp only [checkMax] at h
    split at h
    · split at h
      · exact ⟨(castThrowableLen l "Invalid maxlength").2, by injection h with h'; exact h'.symm⟩
      · simp at h
    · simp at h

/-- Every error thrown by the String transformer's validator (type
mismatch, enum, minlength, maxlength) carries the offending value and the
node path. -/
theorem stringValidate_error (s : EffSettings) (fp : String) (v : JSValue) (e : JsError)
    (h : stringValidate s fp v = .error e) : ∃ m, e = .vErr m [] v (some fp) := by
  cases v with
  | str sv =>
    simp only [stringValidate] at h
    split at h
    · exact ⟨"Unknown enum option { value }", by injection h with h'; exact h'.symm⟩
    · cases hm : checkMin s.minlength fp sv with
      | error e' =>
        rw [hm] at h
        injection h with h'
        subst h'
        exact checkMin_error _ _ _ _ hm
      | ok _ =>
        rw [hm] at h
        exact checkMax_error _ _ _ _ h
  | undef => exact ⟨"Invalid string", by injection h with h'; exact h'.symm⟩
  | null => exact ⟨"Invalid string", by injection h with h'; exact h'.symm⟩
  | bool b => exact ⟨"Invalid string", by injection h with h'; exact h'.symm⟩
  | num n => exact ⟨"Invalid string", by injection h with h'; exact h'.symm⟩
  | nan => exact ⟨"Invalid string", by injection h with h'; exact h'.symm⟩
  | obj l => exact ⟨"Invalid string", by injection h with h'; exact h'.symm⟩

/-- Every error thrown by the Number transformer's validator carries the
offending value and the node path. -/
theorem numberValidate_error (fp : String) (v : JSValue) (e : JsError)
    (h : numberValidate fp v = .error e) : ∃ m, e = .vErr m [] v (some fp) := by
  cases v <;> simp only [numberValidate] at h <;>
    first
      | exact ⟨"Invalid number", by injection h with h'; exact h'.symm⟩
      | simp at h

/-- Every error thrown by the Boolean transformer's validator carries the
offending value and the node path. -/
theorem booleanValidate_error (fp : String) (v : JSValue) (e : JsError)
    (h : booleanValidate fp v = .error e) : ∃ m, e = .vErr m [] v (some fp) := by
  cases v <;> simp only [booleanValidate] at h <;>
    first
      | exact ⟨"Invalid boolean", by injection h with h'; exact h'.symm⟩
      | simp at h

/-- The only error `propertiesRestricted` can raise is the `TypeError`
from `Object.keys(null)` — in particular it never raises a
ValidationError. -/
theorem propertiesRestricted_error :
    ∀ (v : JSValue) (props : List String), ∀ e : JsError,
      propertiesRestricted v props = .error e →
        e = .typeError "Cannot convert undefined or null to object" := by
  refine propertiesRestricted.induct
    (fun v props => ∀ e, propertiesRestricted v props = .error e
      → e = .typeError "Cannot convert undefined or null to object")
    (fun l props => ∀ e, propertiesRestrictedGo l props = .error e
      → e = .typeError "Cannot convert undefined or null to object")
    ?_ ?_ ?_ ?_ ?_ ?_ ?_ ?_ ?_ ?_
  · intro fields properties ih e h
    exact ih e h
  · intro x e h
    injection h with h'
    exact h'.symm
  · intro t x h1 h2 e h
    cases t with
    | obj fields => exact absurd rfl (h1 fields)
    | null => exact absurd rfl h2
    | undef => simp [propertiesRestricted] at h
    | bool b => simp [propertiesRestricted] at h
    | num n => simp [propertiesRestricted] at h
    | nan => simp [propertiesRestricted] at h
    | str s => simp [propertiesRestricted] at h
  · intro x e h
    simp [propertiesRestrictedGo] at h
  · intro k v rest properties hobj cp happ ih e h
    simp only [propertiesRestrictedGo, hobj, if_true] at h
    rw [if_pos happ] at h
    exact ih e h
  · intro k v rest properties hobj cp happ e' he ih e h
    simp only [propertiesRestrictedGo, hobj, if_true] at h
    rw [if_neg happ, he] at h
    injection h with h'
    rw [← h']
    exact ih e' he
  · intro k v rest properties hobj cp happ hrec ih1 ih2 e h
    simp only [propertiesRestrictedGo, hobj, if_true] at h
    rw [if_neg happ, hrec] at h
    exact ih2 e h
  · intro k v rest properties hobj cp happ hrec ih e h
    simp only [propertiesRestrictedGo, hobj, if_true] at h
    rw [if_neg happ, hrec] at h
    exact absurd h (by simp)
  · intro k v rest properties hobj hcont ih e h
    simp only [propertiesRestrictedGo] at h
    rw [if_neg (by simp [hobj]), if_pos hcont] at h
    exact ih e h
  · intro k v rest properties hobj hcont e h
    simp only [propertiesRestrictedGo] at h
    rw [if_neg (by simp [hobj]), if_neg hcont] at h
    exact absurd h (by simp)

/-- The only error the `runChildren` loop itself can raise (outside the
error trapper) is the `TypeError` from a failed child lookup. -/
theorem runChildrenCore_error (table : List (String × SchemaNode × (JSValue → Except JsError JSValue)))
    (obj : JSValue) :
    ∀ (names : List String) (acc : List (String × JSValue)) (errs : List JsError) (e : JsError),
      runChildrenCore table obj names acc errs = .error e →
        e = .typeError "Cannot read properties of undefined" := by
  intro names
  induction names with
  | nil =>
    intro acc errs e h
    simp [runChildrenCore] at h
  | cons n rest ih =>
    intro acc errs e h
    simp only [runChildrenCore] at h
    cases hf : table.find? (fun p => p.1 == stripDotted n) with
    | none =>
      rw [hf] at h
      injection h with h'
      exact h'.symm
    | some p =>
      obtain ⟨cname, nd, pf⟩ := p
      rw [hf] at h
      dsimp only at h
      cases hp : pf (obj.getProp cname) with
      | ok val =>
        rw [hp] at h
        exact ih _ _ _ h
      | error e' =>
        rw [hp] at h
        exact ih _ _ _ h

/-- A ValidationError-shaped failure of `structureValidation` is exactly
the `Invalid object schema` error: it carries the offending object as its
`value` and no `field`. -/
theorem structureValidation_vErr (node : SchemaNode) (obj : JSValue) (m : String)
    (errs : List JsError) (val : JSValue) (fld : Option String)
    (h : structureValidation node obj = .error (.vErr m errs val fld)) :
    m = "Invalid object schema" ∧ val = obj ∧ fld = none := by
  simp only [structureValidation] at h
  split at h
  · simp at h
  · cases hr : propertiesRestricted obj node.ownPaths with
    | error e' =>
      rw [hr] at h
      have he := propertiesRestricted_error _ _ _ hr
      injection h with h'
      rw [he] at h'
      exact absurd h' (by simp)
    | ok b =>
      rw [hr] at h
      cases b with
      | true => simp at h
      | false =>
        dsimp only at h
        injection h with h'
        injection h' with h1 h2 h3 h4
        exact ⟨h1.symm, h3.symm, h4.symm⟩

/-- A ValidationError-shaped failure of `runChildren` is exactly the
aggregated `Data is not valid` error: it carries `undefined` as its
`value` (not the offending input) and no `field` (not the originating
node). -/
theorem runChildren_vErr (node : SchemaNode)
    (table : List (String × SchemaNode × (JSValue → Except JsError JSValue)))
    (obj : JSValue) (m : String) (errs : List JsError) (val : JSValue) (fld : Option String)
    (h : runChildren node table obj = .error (.vErr m errs val fld)) :
    m = "Data is not valid" ∧ val = .undef ∧ fld = none := by
  simp only [runChildren] at h
  split at h
  · simp at h
  · cases hc : runChildrenCore table obj node.ownPaths [] [] with
    | error e' =>
      rw [hc] at h
      have he := runChildrenCore_error _ _ _ _ _ _ hc
      injection h with h'
      rw [he] at h'
      exact absurd h' (by simp)
    | ok p =>
      obtain ⟨fields, errs'⟩ := p
      rw [hc] at h
      dsimp only at h
      split at h
      · simp at h
      · injection h with h'
        injection h' with h1 h2 h3 h4
        exact ⟨h1.symm, h3.symm, h4.symm⟩

/-- C7, counterexample.  The aggregated nested error carries neither the
originating node (`field` is absent) nor the offending input (`value` is
`undefined`, not the parsed object), contradicting the claim for the
aggregated-error case. -/
theorem claim_C7_counterexample :
    Schema.parse
        (.mk "" (.single "Object") {} [.mk "a" (.single "String") {} [] none none] none none)
        (.obj [("a", .num 5)])
      = .error (.vErr "Data is not valid" [.vErr "Invalid string" [] (.num 5) (some "a")]
          .undef none)
    ∧ (JSValue.undef ≠ JSValue.obj [("a", .num 5)]) :=
  ⟨rfl, by simp⟩

/-- C7, amended.  Errors raised through `throwError` carry the originating
node in `field`: transformer validators (type-mismatch and constraint
errors) also carry the offending value; the required error carries `field`
with `undefined` as value; the union summary error carries `field` with
`undefined` as value (not the unresolved input).  The structural
`Invalid object schema` error carries the offending object but no
`field`, and the aggregated `Data is not valid` error carries neither
`field` nor `value`. -/
theorem claim_C7 :
    (∀ (s : EffSettings) (fp : String) (v : JSValue) (e : JsError),
      stringValidate s fp v = .error e → ∃ m, e = .vErr m [] v (some fp))
    ∧ (∀ (fp : String) (v : JSValue) (e : JsError),
      numberValidate fp v = .error e → ∃ m, e = .vErr m [] v (some fp))
    ∧ (∀ (fp : String) (v : JSValue) (e : JsError),
      booleanValidate fp v = .error e → ∃ m, e = .vErr m [] v (some fp))
    ∧ (∀ (pp : Option String) (node : SchemaNode) (t : String) (tr : Transformer),
      Transformers t = some tr →
      (node.settingsAt (some t)).defaultPresent = false →
      (node.settingsAt (some t)).required = .flag true →
      parseSingle pp node t .undef
        = .error (.vErr ("Property " ++ fullPathOf pp node.name ++ " is required") [] .undef
            (some (fullPathOf pp node.name))))
    ∧ (∀ (pp : Option String) (node : SchemaNode) (ts : List String) (v : JSValue) (e : JsError),
      parseProperty pp node (.union ts) v = .error e →
      e = .vErr "Could not resolve given value type" [] .undef (some (fullPathOf pp node.name)))
    ∧ (∀ (node : SchemaNode) (table : List (String × SchemaNode × (JSValue → Except JsError JSValue)))
        (obj : JSValue) (m : String) (errs : List JsError) (val : JSValue) (fld : Option String),
      runChildren node table obj = .error (.vErr m errs val fld) →
      m = "Data is not valid" ∧ val = .undef ∧ fld = none)
    ∧ (∀ (node : SchemaNode) (obj : JSValue) (m : String) (errs : List JsError) (val : JSValue)
        (fld : Option String),
      structureValidation node obj = .error (.vErr m errs val fld) →
      m = "Invalid object schema" ∧ val = obj ∧ fld = none) := by
  refine ⟨stringValidate_error, numberValidate_error, booleanValidate_error, ?_, ?_,
    runChildren_vErr, structureValidation_vErr⟩
  · intro pp node t tr ht hdp hreq
    simp [parseSingle, ht, hdp, hreq, ReqSetting.truthy, castThrowable, JSValue.isUndef]
  · intro pp node ts v e h
    simp only [parseProperty] at h
    split at h
    · simp at h
    · cases htr : tryTypes pp node v ts (false, none) with
      | mk parsed r =>
        rw [htr] at h
        cases parsed with
        | true => simp at h
        | false =>
          dsimp only at h
          injection h with h'
          exact h'.symm

/-- C7, witness: the String type-mismatch error on the number `1` at a
node with path `p` carries that value and that node path. -/
theorem claim_C7_witness :
    ∃ m, (JsError.vErr "Invalid string" [] (.num 1) (some "p")) = .vErr m [] (.num 1) (some "p") :=
  claim_C7.1 ((SchemaNode.mk "p" (.single "String") {} [] none none).settingsAt (some "String"))
    "p" (.num 1) (.vErr "Invalid string" [] (.num 1) (some "p")) rfl

/-- The per-child error contribution as the specification sentence states
it: a thrown ValidationError with a non-empty `errors` list contributes
its sub-errors flattened; any other thrown error contributes itself. -/
def specContribution (e : JsError) : List JsError :=
  match e with
  | .vErr _ errs _ _ => if errs.isEmpty then [e] else errs
  | _ => [e]

/-- The claim-side contribution coincides with the embedded error
trapper. -/
theorem specContribution_eq_sandboxFlatten (e : JsError) :
    specContribution e = sandboxFlatten e := by
  cases e with
  | vErr m errs v f =>
    cases errs <;> simp [specContribution, sandboxFlatten]
  | plain m => rfl
  | typeError m => rfl

/-- The flat error list the specification claims for a nested node: every
declared child field is attempted (in declaration order) on its input
property, and each failing child contributes per `specContribution`. -/
def specChildErrors (pp : Option String) (obj : JSValue) : List SchemaNode → List JsError
  | [] => []
  | c :: rest =>
    (match parseNode pp c (obj.getProp c.name) with
      | .ok _ => []
      | .error e => specContribution e) ++ specChildErrors pp obj rest

/-- The sanitized object the specification claims for a nested node:
exactly those child names whose recursive parse returned a defined value,
in declaration order. -/
def specAssembled (pp : Option String) (obj : JSValue) : List SchemaNode → List (String × JSValue)
  | [] => []
  | c :: rest =>
    (match parseNode pp c (obj.getProp c.name) with
      | .ok val => if val.isUndef then [] else [(c.name, val)]
      | .error _ => []) ++ specAssembled pp obj rest

/-- A dot-free character list splits into itself. -/
theorem splitOnChar_no_dot (l : List Char) (h : ('.' : Char) ∉ l) :
    splitOnChar '.' l = [l] := by
  induction l with
  | nil => rfl
  | cons x xs ih =>
    have hx : ¬ x = '.' := fun hc => h (by simp [hc])
    have hxs : ('.' : Char) ∉ xs := fun hc => h (by simp [hc])
    simp only [splitOnChar, ih hxs]
    rw [if_neg (by simpa using hx)]

/-- `replace(/\..*$/)` leaves a dot-free child name unchanged. -/
theorem stripDotted_dotFree (s : String) (h : ('.' : Char) ∉ s.data) :
    stripDotted s = s := by
  simp only [stripDotted, splitDots, splitOnChar_no_dot s.data h, List.map]

/-- `find?` skips a prefix in which nothing matches. -/
theorem find?_append_none {α : Type} (p : α → Bool) (l1 l2 : List α) :
    l1.find? p = none → (l1 ++ l2).find? p = l2.find? p := by
  induction l1 with
  | nil => intro _; rfl
  | cons a rest ih =>
    intro h
    cases hp : p a with
    | true =>
      rw [List.find?_cons_of_pos _ hp] at h
      exact absurd h (by simp)
    | false =>
      rw [List.find?_cons_of_neg _ (by simp [hp])] at h
      rw [List.cons_append, List.find?_cons_of_neg _ (by simp [hp])]
      exact ih h

/-- `Object.assign` on a fresh key appends it. -/
theorem upsert_append (acc : List (String × JSValue)) (k : String) (v : JSValue) :
    acc.find? (fun p => p.1 == k) = none → upsert acc k v = acc ++ [(k, v)] := by
  induction acc with
  | nil => intro _; rfl
  | cons a rest ih =>
    intro h
    obtain ⟨k', v'⟩ := a
    cases hp : (k' == k) with
    | true =>
      rw [List.find?_cons_of_pos _ (by simpa using hp)] at h
      exact absurd h (by simp)
    | false =>
      rw [List.find?_cons_of_neg _ (by simp [hp])] at h
      have hk : ¬ k' = k := by simpa using hp
      simp only [upsert, if_neg hk, List.cons_append]
      rw [ih h]

/-- If `find?` misses on two lists it misses on their concatenation. -/
theorem find?_append_none₂ {α : Type} (p : α → Bool) (l1 l2 : List α)
    (h1 : l1.find? p = none) (h2 : l2.find? p = none) : (l1 ++ l2).find? p = none := by
  rw [find?_append_none p l1 l2 h1]
  exact h2

/-- Characterization of the `runChildren` loop: with dot-free,
duplicate-free child names (the invariant JavaScript object keys provide),
the loop looks up each declared child exactly once, in order, attempts its
parse whether or not earlier children failed, and returns the accumulated
assembled object and flat error list the specification describes. -/
theorem runChildrenCore_spec (pp : Option String) (obj : JSValue) :
    ∀ (cs : List SchemaNode) (pre : List (String × SchemaNode × (JSValue → Except JsError JSValue)))
      (acc : List (String × JSValue)) (errs : List JsError),
      (∀ c ∈ cs, ('.' : Char) ∉ c.name.data) →
      (cs.map SchemaNode.name).Nodup →
      (∀ c ∈ cs, pre.find? (fun p => p.1 == c.name) = none) →
      (∀ c ∈ cs, acc.find? (fun p => p.1 == c.name) = none) →
      runChildrenCore (pre ++ parseNodeList pp cs) obj (cs.map SchemaNode.name) acc errs
        = .ok (acc ++ specAssembled pp obj cs, errs ++ specChildErrors pp obj cs) := by
  intro cs
  induction cs with
  | nil =>
    intro pre acc errs _ _ _ _
    simp [runChildrenCore, specAssembled, specChildErrors, parseNodeList]
  | cons c rest ih =>
    intro pre acc errs hdot hnodup hpre hacc
    have hdotc : ('.' : Char) ∉ c.name.data := hdot c (by simp)
    have hmem : c.name ∉ rest.map SchemaNode.name := by
      have := hnodup
      simp only [List.map_cons, List.nodup_cons] at this
      exact this.1
    have hnodup' : (rest.map SchemaNode.name).Nodup := by
      have := hnodup
      simp only [List.map_cons, List.nodup_cons] at this
      exact this.2
    have hentry : ∀ c' ∈ rest,
        ([(c.name, c, fun v => parseNode pp c v)] :
          List (String × SchemaNode × (JSValue → Except JsError JSValue))).find?
            (fun p => p.1 == c'.name) = none := by
      intro c' hc'
      have hb : (c.name == c'.name) = false := by
        simp only [beq_eq_false_iff_ne, ne_eq]
        intro hEq
        exact hmem (hEq ▸ List.mem_map_of_mem SchemaNode.name hc')
      simp [List.find?, hb]
    simp only [List.map_cons, parseNodeList, runChildrenCore]
    rw [stripDotted_dotFree c.name hdotc]
    rw [show pre ++ (c.name, c, fun v => parseNode pp c v) :: parseNodeList pp rest
      = pre ++ ([(c.name, c, fun v => parseNode pp c v)] ++ parseNodeList pp rest) from by simp]
    rw [find?_append_none _ pre _ (hpre c (by simp))]
    rw [List.singleton_append]
    rw [List.find?_cons_of_pos _ (by simp)]
    dsimp only
    rw [show (pre ++ (c.name, c, fun v => parseNode pp c v) :: parseNodeList pp rest)
      = (pre ++ [(c.name, c, fun v => parseNode pp c v)]) ++ parseNodeList pp rest from by simp]
    cases hp : parseNode pp c (obj.getProp c.name) with
    | ok val =>
      dsimp only
      have hpre' : ∀ c' ∈ rest,
          (pre ++ [(c.name, c, fun v => parseNode pp c v)]).find?
            (fun p => p.1 == c'.name) = none := fun c' hc' =>
        find?_append_none₂ _ _ _ (hpre c' (List.mem_cons_of_mem c hc')) (hentry c' hc')
      cases hu : val.isUndef with
      | true =>
        rw [if_pos rfl]
        rw [ih _ acc errs (fun c' hc' => hdot c' (List.mem_cons_of_mem c hc')) hnodup' hpre'
          (fun c' hc' => hacc c' (List.mem_cons_of_mem c hc'))]
        simp [specAssembled, specChildErrors, hp, hu]
      | false =>
        rw [if_neg (by simp)]
        rw [upsert_append acc c.name val (hacc c (by simp))]
        have hacc' : ∀ c' ∈ rest,
            (acc ++ [(c.name, val)]).find? (fun p => p.1 == c'.name) = none := by
          intro c' hc'
          refine find?_append_none₂ _ _ _ (hacc c' (List.mem_cons_of_mem c hc')) ?_
          have hb : (c.name == c'.name) = false := by
            simp only [beq_eq_false_iff_ne, ne_eq]
            intro hEq
            exact hmem (hEq ▸ List.mem_map_of_mem SchemaNode.name hc')
          simp [List.find?, hb]
        rw [ih _ (acc ++ [(c.name, val)]) errs
          (fun c' hc' => hdot c' (List.mem_cons_of_mem c hc')) hnodup' hpre' hacc']
        simp [specAssembled, specChildErrors, hp, hu]
    | error e =>
      dsimp only
      have hpre' : ∀ c' ∈ rest,
          (pre ++ [(c.name, c, fun v => parseNode pp c v)]).find?
            (fun p => p.1 == c'.name) = none := fun c' hc' =>
        find?_append_none₂ _ _ _ (hpre c' (List.mem_cons_of_mem c hc')) (hentry c' hc')
      rw [ih _ acc (errs ++ sandboxFlatten e)
        (fun c' hc' => hdot c' (List.mem_cons_of_mem c hc')) hnodup' hpre'
        (fun c' hc' => hacc c' (List.mem_cons_of_mem c hc'))]
      simp [specAssembled, specChildErrors, hp, specContribution_eq_sandboxFlatten]

/-- The specification-side description of a nested parse: either the
optional-and-absent early return, or structural errors and per-child
errors collected into one flat list, with the aggregated
`Data is not valid` ValidationError thrown when the list is non-empty and
the assembled object of the defined child results returned otherwise. -/
def specNested (node : SchemaNode) (pp2 : Option String) (obj : JSValue) :
    Except JsError JSValue :=
  if ¬ (node.settingsAt none).required.truthy ∧ obj.isUndef then .ok .undef
  else
    let structErrs := match structureValidation node obj with
      | .ok _ => []
      | .error e => specContribution e
    let errors := structErrs ++ specChildErrors pp2 obj node.children
    if errors.isEmpty then .ok (.obj (specAssembled pp2 obj node.children))
    else .error (.vErr "Data is not valid" errors .undef none)

/-- `runChildren` on the child parse table realizes the specification-side
nested description. -/
theorem runChildren_spec (node : SchemaNode) (pp2 : Option String) (obj : JSValue)
    (hdot : ∀ c ∈ node.children, ('.' : Char) ∉ c.name.data)
    (hnodup : (node.children.map SchemaNode.name).Nodup) :
    runChildren node (parseNodeList pp2 node.children) obj = specNested node pp2 obj := by
  by_cases hgo : ¬ (node.settingsAt none).required.truthy ∧ obj.isUndef
  · simp [runChildren, specNested, hgo]
  · rw [specNested, if_neg hgo]
    rw [runChildren, if_neg hgo]
    have hcore := runChildrenCore_spec pp2 obj node.children [] [] []
      hdot hnodup (by intro c _; rfl) (by intro c _; rfl)
    rw [List.nil_append] at hcore
    rw [show node.ownPaths = node.children.map SchemaNode.name from rfl, hcore]
    simp only [List.nil_append]
    cases hsv : structureValidation node obj with
    | ok u => simp
    | error e =>
      dsimp only
      rw [specContribution_eq_sandboxFlatten e]

/-- A nested node's `parse` (with no root-level hooks) realizes the
specification-side nested description, the children being parsed against
the node's full path as parent path. -/
theorem parseNode_nested_spec (pp : Option String) (node : SchemaNode) (obj : JSValue)
    (hch : node.children ≠ [])
    (hrc : node.rcast = none) (hrv : node.rvalidate = none)
    (hdot : ∀ c ∈ node.children, ('.' : Char) ∉ c.name.data)
    (hnodup : (node.children.map SchemaNode.name).Nodup) :
    parseNode pp node obj = specNested node (some (fullPathOf pp node.name)) obj := by
  cases node with
  | mk name tp raw children rc rv =>
    simp only [SchemaNode.rcast] at hrc
    simp only [SchemaNode.rvalidate] at hrv
    subst hrc
    subst hrv
    simp only [SchemaNode.children] at hch hdot hnodup
    have hmain : (if children.isEmpty then
          parseProperty pp (.mk name tp raw children none none) tp obj
        else
          runChildren (.mk name tp raw children none none)
            (parseNodeList (some (fullPathOf pp name)) children) obj)
        = specNested (.mk name tp raw children none none)
            (some (fullPathOf pp (SchemaNode.mk name tp raw children none none).name)) obj := by
      rw [if_neg (by simpa using hch)]
      exact runChildren_spec (.mk name tp raw children none none)
        (some (fullPathOf pp name)) obj hdot hnodup
    cases pp with
    | some p =>
      rw [show parseNode (some p) (.mk name tp raw children none none) obj
        = (if children.isEmpty then
            parseProperty (some p) (.mk name tp raw children none none) tp obj
          else
            runChildren (.mk name tp raw children none none)
              (parseNodeList (some (fullPathOf (some p) name)) children) obj) from rfl]
      exact hmain
    | none =>
      rw [show parseNode none (.mk name tp raw children none none) obj
        = (match (if children.isEmpty then
              parseProperty none (.mk name tp raw children none none) tp obj
            else
              runChildren (.mk name tp raw children none none)
                (parseNodeList (some (fullPathOf none name)) children) obj) with
          | .error e => .error e
          | .ok v1 => .ok v1) from rfl]
      rw [hmain]
      cases specNested (.mk name tp raw children none none)
        (some (fullPathOf none (SchemaNode.mk name tp raw children none none).name)) obj with
      | ok v => rfl
      | error e => rfl

/-- C1, counterexample.  A non-required nested node parsing `undefined`
returns `undefined` without attempting any child and without assembling an
object: the claim's universal "attempts every declared child field ...
otherwise the assembled object is returned" fails there — the child list
is non-empty and its (required) child would have contributed a required
error had it been attempted. -/
theorem claim_C1_counterexample :
    parseNode none (SchemaNode.mk "" (.single "Object") { required := some (.flag false) }
        [.mk "a" (.single "String") {} [] none none] none none) .undef
      = .ok .undef
    ∧ specChildErrors (some "") .undef [SchemaNode.mk "a" (.single "String") {} [] none none]
      = [.vErr "Property a is required" [] .undef (some "a")]
    ∧ JSValue.undef ≠ JSValue.obj [] :=
  ⟨rfl, rfl, by simp⟩

/-- C1, amended.  For every nested schema node (with the dot-free,
duplicate-free child names JavaScript object keys provide, and no
root-level hooks): when the node is non-required and the input is
undefined, `parse` returns undefined without attempting children;
otherwise every declared child field is attempted, structural
unknown-property errors and each failing child's contribution (sub-errors
flattened for a ValidationError with non-empty `errors`, the error itself
otherwise) are collected into one flat list, and a single
`Data is not valid` ValidationError carrying the list is thrown when it is
non-empty, else the assembled object is returned. -/
theorem claim_C1 (pp : Option String) (node : SchemaNode) (obj : JSValue)
    (hch : node.children ≠ [])
    (hrc : node.rcast = none) (hrv : node.rvalidate = none)
    (hdot : ∀ c ∈ node.children, ('.' : Char) ∉ c.name.data)
    (hnodup : (node.children.map SchemaNode.name).Nodup) :
    parseNode pp node obj
      = if ¬ (node.settingsAt none).required.truthy ∧ obj.isUndef then .ok .undef
        else
          (let structErrs := match structureValidation node obj with
            | .ok _ => []
            | .error e => specContribution e
           let errors := structErrs
            ++ specChildErrors (some (fullPathOf pp node.name)) obj node.children
           if errors.isEmpty then
            .ok (.obj (specAssembled (some (fullPathOf pp node.name)) obj node.children))
           else .error (.vErr "Data is not valid" errors .undef none)) :=
  parseNode_nested_spec pp node obj hch hrc hrv hdot hnodup

/-- C1, witness: the schema `{ a: String, b: Number }` on the input
`{ a: 1, x: true }` attempts both children and aggregates the structural
unknown-property failure, the type mismatch of `a` and the
required-failure of `b` into one flat list under the generic message. -/
theorem claim_C1_witness :
    parseNode none
        (SchemaNode.mk "" (.single "Object") {}
          [.mk "a" (.single "String") {} [] none none,
           .mk "b" (.single "Number") {} [] none none] none none)
        (.obj [("a", .num 1), ("x", .bool true)])
      = .error (.vErr "Data is not valid"
          [.plain "Unknown property x",
           .vErr "Invalid string" [] (.num 1) (some "a"),
           .vErr "Property b is required" [] .undef (some "b")] .undef none) := by
  rw [claim_C1 none
    (SchemaNode.mk "" (.single "Object") {}
      [.mk "a" (.single "String") {} [] none none,
       .mk "b" (.single "Number") {} [] none none] none none)
    (.obj [("a", .num 1), ("x", .bool true)])
    (by simp [SchemaNode.children]) rfl rfl (by decide) (by decide)]
  rfl

/-- C5.  Whenever a nested node's `parse` (with no root hooks, and the
dot-free duplicate-free child names JavaScript provides) returns an
object, that object's fields are exactly the claim's assembly: those child
names whose recursive parse returned a defined value, in order — children
resolving to undefined are omitted rather than stored as undefined; and
the specification's round-trip example parses to an output structurally
equal to its input with the absent optional `age` omitted. -/
theorem claim_C5 :
    (∀ (pp : Option String) (node : SchemaNode) (obj : JSValue) (fields : List (String × JSValue)),
      node.children ≠ [] →
      node.rcast = none → node.rvalidate = none →
      (∀ c ∈ node.children, ('.' : Char) ∉ c.name.data) →
      (node.children.map SchemaNode.name).Nodup →
      parseNode pp node obj = .ok (.obj fields) →
      fields = specAssembled (some (fullPathOf pp node.name)) obj node.children)
    ∧ (construct none "" roundTripDesc).map (fun s => Schema.parse s roundTripInput)
        = .ok (.ok roundTripInput) := by
  constructor
  · intro pp node obj fields hch hrc hrv hdot hnodup hok
    rw [parseNode_nested_spec pp node obj hch hrc hrv hdot hnodup] at hok
    rw [specNested] at hok
    split at hok
    · injection hok with h'
      exact absurd h' (by simp)
    · dsimp only at hok
      split at hok
      · injection hok with h'
        injection h' with h''
        exact h''.symm
      · exact absurd hok (by simp)
  · rfl

/-- C5, witness: the schema `{ a: { type: Number, required: false },
b: String }` parsing `{ b: "x" }` returns an object holding exactly the
defined child `b` — the absent optional `a` is omitted. -/
theorem claim_C5_witness :
    [("b", JSValue.str "x")]
      = specAssembled (some "") (.obj [("b", .str "x")])
          [SchemaNode.mk "a" (.single "Number") { required := some (.flag false) } [] none none,
           SchemaNode.mk "b" (.single "String") {} [] none none] :=
  claim_C5.1 none
    (SchemaNode.mk "" (.single "Object") {}
      [.mk "a" (.single "Number") { required := some (.flag false) } [] none none,
       .mk "b" (.single "String") {} [] none none] none none)
    (.obj [("b", .str "x")]) [("b", .str "x")]
    (by simp [SchemaNode.children]) rfl rfl (by decide) (by decide) rfl

/-- The hook-free part of Schema.parse: children for a nested node, the
leaf pipeline otherwise — what `parse` runs before the root-only hook
stage. -/
def parseMain (pp : Option String) : SchemaNode → JSValue → Except JsError JSValue
  | .mk name tp raw children rc rv, v =>
    if children.isEmpty then
      parseProperty pp (.mk name tp raw children rc rv) tp v
    else
      runChildren (.mk name tp raw children rc rv)
        (parseNodeList (some (fullPathOf pp name)) children) v

/-- A non-root parse is the hook-free part. -/
theorem parseNode_some_eq_main (p : String) (node : SchemaNode) (v : JSValue) :
    parseNode (some p) node v = parseMain (some p) node v := by
  cases node
  rfl

/-- A root parse is the hook-free part followed by the root-level hook
stage. -/
theorem parseNode_none_eq_main (node : SchemaNode) (v : JSValue) :
    parseNode none node v
      = match parseMain none node v with
        | .error e => .error e
        | .ok v1 =>
          match (match node.rvalidate with
            | some f => f (match node.rcast with | some c => c v1 | none => v1)
            | none => none) with
          | some e => .error e
          | none => .ok (match node.rcast with | some c => c v1 | none => v1) := by
  cases node
  rfl

/-- A value accepted by the Number validator is a (non-NaN) number. -/
theorem numberValidate_ok_shape (fp : String) (v : JSValue) (u : Unit)
    (h : numberValidate fp v = .ok u) : ∃ n, v = .num n := by
  cases v with
  | num n => exact ⟨n, rfl⟩
  | undef => simp [numberValidate] at h
  | null => simp [numberValidate] at h
  | bool b => simp [numberValidate] at h
  | nan => simp [numberValidate] at h
  | str s => simp [numberValidate] at h
  | obj l => simp [numberValidate] at h

/-- A value accepted by the String validator is a string. -/
theorem stringValidate_ok_shape (s : EffSettings) (fp : String) (v : JSValue) (u : Unit)
    (h : stringValidate s fp v = .ok u) : ∃ sv, v = .str sv := by
  cases v with
  | str sv => exact ⟨sv, rfl⟩
  | undef => simp [stringValidate] at h
  | null => simp [stringValidate] at h
  | bool b => simp [stringValidate] at h
  | num n => simp [stringValidate] at h
  | nan => simp [stringValidate] at h
  | obj l => simp [stringValidate] at h

/-- A value accepted by the Boolean validator is a boolean. -/
theorem booleanValidate_ok_shape (fp : String) (v : JSValue) (u : Unit)
    (h : booleanValidate fp v = .ok u) : ∃ b, v = .bool b := by
  cases v with
  | bool b => exact ⟨b, rfl⟩
  | undef => simp [booleanValidate] at h
  | null => simp [booleanValidate] at h
  | num n => simp [booleanValidate] at h
  | nan => simp [booleanValidate] at h
  | str s => simp [booleanValidate] at h
  | obj l => simp [booleanValidate] at h

/-- `isUndef` characterizes the undefined value. -/
theorem isUndef_iff (v : JSValue) : v.isUndef = true ↔ v = .undef := by
  cases v <;> simp [JSValue.isUndef]

/-- A leaf parse (single registered type) with a non-undefined value is
the stage pipeline. -/
theorem parseSingle_not_undef (pp : Option String) (node : SchemaNode) (t : String)
    (tr : Transformer) (ht : Transformers t = some tr) (v : JSValue) (hv : v.isUndef = false) :
    parseSingle pp node t v
      = specLeafStageOrder tr (node.settingsAt (some t)) (fullPathOf pp node.name) v := by
  simp only [parseSingle, ht, specLeafStageOrder]
  simp [hv]

/-- Every successful leaf parse either returned undefined on an undefined
input, or is a run of the stage pipeline on the (possibly
default-substituted) value. -/
theorem parseSingle_ok_cases (pp : Option String) (node : SchemaNode) (t : String)
    (tr : Transformer) (ht : Transformers t = some tr) (v y : JSValue)
    (h : parseSingle pp node t v = .ok y) :
    (y = .undef ∧ v = .undef)
    ∨ (∃ d, specLeafStageOrder tr (node.settingsAt (some t))
        (fullPathOf pp node.name) d = .ok y) := by
  simp only [parseSingle, ht] at h
  set d := (if (node.settingsAt (some t)).defaultPresent ∧ v.isUndef = true then
    ((node.settingsAt (some t)).defaultVal.getD (.value .undef)).eval (fullPathOf pp node.name)
    else v) with hd
  split at h
  · rename_i hc
    left
    injection h with h'
    refine ⟨h'.symm, ?_⟩
    by_cases hv : v.isUndef = true
    · exact (isUndef_iff v).mp hv
    · exfalso
      rw [hd, if_neg (by simp_all)] at hc
      exact hv hc.1
  · split at h
    · exact absurd h (by simp)
    · right
      refine ⟨d, ?_⟩
      simp only [specLeafStageOrder]
      exact h

/-- The Number stage pipeline (no node-level cast) is stable on its own
output: the output is a number and re-running the pipeline on it succeeds
with the same value. -/
theorem stage_stable_number (s : EffSettings) (fp : String) (hc : s.cast = none)
    (v y : JSValue) (h : specLeafStageOrder numberTransformer s fp v = .ok y) :
    y.isUndef = false ∧ y.isNull = false
    ∧ specLeafStageOrder numberTransformer s fp y = .ok y := by
  simp only [specLeafStageOrder, hc, numberTransformer, Option.getD_some, Option.getD_none, id_eq] at h ⊢
  cases hval : numberValidate fp (if s.autoCast = true then numberCast v else v) with
  | error e =>
    rw [hval] at h
    exact absurd h (by simp)
  | ok u =>
    rw [hval] at h
    dsimp only at h
    cases hnv : (match s.validate with | some f => f (if s.autoCast = true then numberCast v else v) | none => none) with
    | some e =>
      rw [hnv] at h
      exact absurd h (by simp)
    | none =>
      rw [hnv] at h
      dsimp only at h
      injection h with h'
      obtain ⟨n, hn⟩ := numberValidate_ok_shape fp _ u hval
      have hy : y = .num n := by rw [← h', hn]
      subst hy
      have hcastfix : (if s.autoCast = true then numberCast (JSValue.num n) else JSValue.num n)
          = JSValue.num n := by
        cases s.autoCast <;> simp [numberCast]
      refine ⟨rfl, rfl, ?_⟩
      rw [hcastfix]
      rw [show numberValidate fp (JSValue.num n) = Except.ok u from hn ▸ hval]
      dsimp only
      have hnv2 : (match s.validate with | some f => f (JSValue.num n) | none => none) = none := by
        rw [← hn]
        exact hnv
      rw [hnv2]

/-- The String stage pipeline (no node-level cast) is stable on its own
output. -/
theorem stage_stable_string (s : EffSettings) (fp : String) (hc : s.cast = none)
    (v y : JSValue) (h : specLeafStageOrder stringTransformer s fp v = .ok y) :
    y.isUndef = false ∧ y.isNull = false
    ∧ specLeafStageOrder stringTransformer s fp y = .ok y := by
  simp only [specLeafStageOrder, hc, stringTransformer, Option.getD_some, Option.getD_none, id_eq] at h ⊢
  have hid : ∀ w : JSValue, (if s.autoCast = true then stringCast w else w) = w := by
    intro w
    cases s.autoCast <;> simp [stringCast]
  rw [hid] at h
  cases hval : stringValidate s fp v with
  | error e =>
    rw [hval] at h
    exact absurd h (by simp)
  | ok u =>
    rw [hval] at h
    dsimp only at h
    cases hnv : (match s.validate with | some f => f v | none => none) with
    | some e =>
      rw [hnv] at h
      exact absurd h (by simp)
    | none =>
      rw [hnv] at h
      dsimp only at h
      injection h with h'
      obtain ⟨sv, hsv⟩ := stringValidate_ok_shape s fp _ u hval
      have hy : y = .str sv := by rw [← h', hsv]
      subst hy
      refine ⟨rfl, rfl, ?_⟩
      rw [hid]
      rw [show stringValidate s fp (JSValue.str sv) = Except.ok u from hsv ▸ hval]
      dsimp only
      have hnv2 : (match s.validate with | some f => f (JSValue.str sv) | none => none) = none := by
        rw [← hsv]
        exact hnv
      rw [hnv2]

/-- The Boolean stage pipeline (no node-level cast) is stable on its own
output. -/
theorem stage_stable_boolean (s : EffSettings) (fp : String) (hc : s.cast = none)
    (v y : JSValue) (h : specLeafStageOrder booleanTransformer s fp v = .ok y) :
    y.isUndef = false ∧ y.isNull = false
    ∧ specLeafStageOrder booleanTransformer s fp y = .ok y := by
  simp only [specLeafStageOrder, hc, booleanTransformer, Option.getD_some, Option.getD_none, id_eq] at h ⊢
  cases hval : booleanValidate fp (if s.autoCast = true then booleanCast v else v) with
  | error e =>
    rw [hval] at h
    exact absurd h (by simp)
  | ok u =>
    rw [hval] at h
    dsimp only at h
    cases hnv : (match s.validate with | some f => f (if s.autoCast = true then booleanCast v else v) | none => none) with
    | some e =>
      rw [hnv] at h
      exact absurd h (by simp)
    | none =>
      rw [hnv] at h
      dsimp only at h
      injection h with h'
      obtain ⟨b, hb⟩ := booleanValidate_ok_shape fp _ u hval
      have hy : y = .bool b := by rw [← h', hb]
      subst hy
      have hcastfix : (if s.autoCast = true then booleanCast (JSValue.bool b) else JSValue.bool b)
          = JSValue.bool b := by
        cases s.autoCast <;> simp [booleanCast, JSValue.truthy]
      refine ⟨rfl, rfl, ?_⟩
      rw [hcastfix]
      rw [show booleanValidate fp (JSValue.bool b) = Except.ok u from hb ▸ hval]
      dsimp only
      have hnv2 : (match s.validate with | some f => f (JSValue.bool b) | none => none) = none := by
        rw [← hb]
        exact hnv
      rw [hnv2]

/-- A leaf parse with a built-in type and no node-level cast is stable on
its own success value, and never succeeds with `null` outside the
`allowNull` short-circuit. -/
theorem parseSingle_stable (pp : Option String) (node : SchemaNode) (t : String)
    (hcast : (node.settingsAt (some t)).cast = none)
    (ht : t = "String" ∨ t = "Number" ∨ t = "Boolean")
    (v y : JSValue) (h : parseSingle pp node t v = .ok y) :
    y.isNull = false ∧ parseSingle pp node t y = .ok y := by
  have htr : ∃ tr, Transformers t = some tr
      ∧ (∀ (s : EffSettings) (fp : String) (v' y' : JSValue), s.cast = none →
          specLeafStageOrder tr s fp v' = .ok y' →
          y'.isUndef = false ∧ y'.isNull = false ∧ specLeafStageOrder tr s fp y' = .ok y') := by
    rcases ht with h1 | h1 | h1 <;> subst h1
    · exact ⟨stringTransformer, rfl, fun s fp v' y' hc hh => stage_stable_string s fp hc v' y' hh⟩
    · exact ⟨numberTransformer, rfl, fun s fp v' y' hc hh => stage_stable_number s fp hc v' y' hh⟩
    · exact ⟨booleanTransformer, rfl, fun s fp v' y' hc hh => stage_stable_boolean s fp hc v' y' hh⟩
  obtain ⟨tr, htr1, hstb⟩ := htr
  rcases parseSingle_ok_cases pp node t tr htr1 v y h with ⟨hy, hv⟩ | ⟨d, hd⟩
  · subst hy
    subst hv
    exact ⟨rfl, h⟩
  · obtain ⟨hyu, hyn, hstage⟩ := hstb _ _ _ _ hcast hd
    refine ⟨hyn, ?_⟩
    rw [parseSingle_not_undef pp node t tr htr1 y hyu]
    exact hstage

/-- The leaf parse including the `allowNull` short-circuit is stable on
its own success value. -/
theorem parsePropertyOne_stable (pp : Option String) (node : SchemaNode) (t : String)
    (hcast : (node.settingsAt (some t)).cast = none)
    (ht : t = "String" ∨ t = "Number" ∨ t = "Boolean")
    (v y : JSValue) (h : parsePropertyOne pp node t v = .ok y) :
    parsePropertyOne pp node t y = .ok y := by
  by_cases hn : v.isNull ∧ (node.settingsAt (some t)).allowNull
  · rw [parsePropertyOne, if_pos hn] at h
    injection h with h'
    subst h'
    rw [parsePropertyOne, if_pos hn]
  · rw [parsePropertyOne, if_neg hn] at h
    obtain ⟨hynull, hrep⟩ := parseSingle_stable pp node t hcast ht v y h
    rw [parsePropertyOne, if_neg (by simp [hynull])]
    exact hrep

/-- A match of the `^k\.` pattern forces a dot in the candidate. -/
theorem leadsWith_dot_mem (xs : List Char) :
    ∀ ys, leadsWith (xs ++ ['.']) ys = true → ('.' : Char) ∈ ys := by
  induction xs with
  | nil =>
    intro ys h
    cases ys with
    | nil => simp [leadsWith] at h
    | cons b bs =>
      simp only [List.nil_append, leadsWith, Bool.and_eq_true, beq_iff_eq] at h
      simp [← h.1]
  | cons a as ih =>
    intro ys h
    cases ys with
    | nil => simp [leadsWith] at h
    | cons b bs =>
      simp only [List.cons_append, leadsWith, Bool.and_eq_true] at h
      exact List.mem_cons_of_mem b (ih bs h.2)

/-- Against dot-free properties, the sub-property extraction is empty. -/
theorem getSubProperties_dotFree (properties : List String) (k : String)
    (h : ∀ p ∈ properties, ('.' : Char) ∉ p.data) :
    getSubProperties properties k = [] := by
  rw [getSubProperties, List.filterMap_eq_nil_iff]
  intro p hp
  rw [if_neg ?_]
  intro hc
  exact h p hp (leadsWith_dot_mem k.data p.data hc.1)

/-- `propertiesRestricted`'s loop accepts an object whose keys all appear
among dot-free properties. -/
theorem propertiesRestrictedGo_subset (properties : List String)
    (hdotp : ∀ p ∈ properties, ('.' : Char) ∉ p.data) :
    ∀ fields : List (String × JSValue),
      (∀ kv ∈ fields, kv.1 ∈ properties) →
      propertiesRestrictedGo fields properties = .ok true := by
  intro fields
  induction fields with
  | nil => intro _; rfl
  | cons kv rest ih =>
    intro hk
    obtain ⟨k, val⟩ := kv
    have hkin : k ∈ properties := hk (k, val) (by simp)
    have hcont : properties.contains k = true := by
      simpa using hkin
    cases hobj : val.isObjectLike with
    | true =>
      rw [propertiesRestrictedGo, if_pos hobj]
      rw [if_pos ?_]
      · exact ih (fun kv' hkv' => hk kv' (List.mem_cons_of_mem _ hkv'))
      · refine ⟨hcont, ?_⟩
        rw [getSubProperties_dotFree properties k hdotp]
        rfl
    | false =>
      rw [propertiesRestrictedGo, if_neg (by simp [hobj]), if_pos hcont]
      exact ih (fun kv' hkv' => hk kv' (List.mem_cons_of_mem _ hkv'))

/-- `structureValidation` accepts an object whose keys all appear among
the node's (dot-free) own paths. -/
theorem structureValidation_obj_ok (node : SchemaNode) (fields : List (String × JSValue))
    (hdotp : ∀ p ∈ node.ownPaths, ('.' : Char) ∉ p.data)
    (hk : ∀ kv ∈ fields, kv.1 ∈ node.ownPaths) :
    structureValidation node (.obj fields) = .ok () := by
  rw [structureValidation]
  split
  · rfl
  · rw [show propertiesRestricted (.obj fields) node.ownPaths
      = propertiesRestrictedGo fields node.ownPaths from rfl]
    rw [propertiesRestrictedGo_subset node.ownPaths hdotp fields hk]

/-- Every assembled entry stems from a child whose parse returned exactly
that defined value. -/
theorem specAssembled_mem (pp : Option String) (obj : JSValue) :
    ∀ (cs : List SchemaNode) (kv : String × JSValue), kv ∈ specAssembled pp obj cs →
      ∃ c ∈ cs, kv.1 = c.name ∧ parseNode pp c (obj.getProp c.name) = .ok kv.2
        ∧ kv.2.isUndef = false := by
  intro cs
  induction cs with
  | nil => intro kv h; simp [specAssembled] at h
  | cons c rest ih =>
    intro kv h
    rw [specAssembled, List.mem_append] at h
    rcases h with h | h
    · refine ⟨c, by simp, ?_⟩
      cases hp : parseNode pp c (obj.getProp c.name) with
      | ok val =>
        rw [hp] at h
        dsimp only at h
        cases hu : val.isUndef with
        | true => rw [if_pos hu] at h; simp at h
        | false =>
          rw [if_neg (by simp [hu])] at h
          simp only [List.mem_singleton] at h
          subst h
          exact ⟨rfl, rfl, hu⟩
      | error e => rw [hp] at h; dsimp only at h; simp at h
    · obtain ⟨c', hc', h1, h2, h3⟩ := ih kv h
      exact ⟨c', List.mem_cons_of_mem c hc', h1, h2, h3⟩

/-- The contribution of a failing child is never empty: an empty error
list therefore means every child parsed successfully. -/
theorem specContribution_ne_nil (e : JsError) : specContribution e ≠ [] := by
  cases e with
  | vErr m errs v f =>
    cases errs <;> simp [specContribution]
  | plain m => simp [specContribution]
  | typeError m => simp [specContribution]

/-- An empty claimed error list means every child parse succeeded. -/
theorem specChildErrors_nil (pp : Option String) (obj : JSValue) :
    ∀ cs : List SchemaNode, specChildErrors pp obj cs = [] →
      ∀ c ∈ cs, ∃ val, parseNode pp c (obj.getProp c.name) = .ok val := by
  intro cs
  induction cs with
  | nil => intro _ c hc; simp at hc
  | cons c0 rest ih =>
    intro h c hc
    rw [specChildErrors, List.append_eq_nil] at h
    rcases List.mem_cons.mp hc with hc0 | hcr
    · subst hc0
      cases hp : parseNode pp c (obj.getProp c.name) with
      | ok val => exact ⟨val, rfl⟩
      | error e =>
        rw [hp] at h
        exact absurd h.1 (specContribution_ne_nil e)
    · exact ih h.2 c hcr

/-- Looking an assembled object up by a child's name yields that child's
defined parse result (or nothing when it resolved undefined or
failed). -/
theorem specAssembled_lookup (pp : Option String) (obj : JSValue) :
    ∀ (cs : List SchemaNode), (cs.map SchemaNode.name).Nodup →
      ∀ c ∈ cs,
        (specAssembled pp obj cs).find? (fun p => p.1 == c.name)
          = match parseNode pp c (obj.getProp c.name) with
            | .ok val => if val.isUndef then none else some (c.name, val)
            | .error _ => none := by
  intro cs
  induction cs with
  | nil => intro _ c hc; simp at hc
  | cons c0 rest ih =>
    intro hnodup c hc
    have hmem0 : c0.name ∉ rest.map SchemaNode.name := by
      have := hnodup
      simp only [List.map_cons, List.nodup_cons] at this
      exact this.1
    have hnodup' : (rest.map SchemaNode.name).Nodup := by
      have := hnodup
      simp only [List.map_cons, List.nodup_cons] at this
      exact this.2
    have hrest_none : ∀ k, (∀ c' ∈ rest, ¬ k = c'.name) →
        (specAssembled pp obj rest).find? (fun p => p.1 == k) = none := by
      intro k hk
      rw [List.find?_eq_none]
      intro kv hkv
      obtain ⟨c', hc', h1, _, _⟩ := specAssembled_mem pp obj rest kv hkv
      simp only [beq_iff_eq]
      rw [h1]
      intro hEq
      exact hk c' hc' hEq.symm
    rcases List.mem_cons.mp hc with hc0 | hcr
    · subst hc0
      rw [specAssembled]
      cases hp : parseNode pp c (obj.getProp c.name) with
      | ok val =>
        dsimp only
        cases hu : val.isUndef with
        | true =>
          rw [if_pos rfl, if_pos rfl, List.nil_append]
          rw [hrest_none c.name ?_]
          intro c' hc' hEq
          exact hmem0 (hEq ▸ List.mem_map_of_mem SchemaNode.name hc')
        | false =>
          rw [if_neg (by simp), if_neg (by simp), List.singleton_append]
          rw [List.find?_cons_of_pos _ (by simp)]
      | error e =>
        dsimp only
        rw [List.nil_append]
        rw [hrest_none c.name ?_]
        intro c' hc' hEq
        exact hmem0 (hEq ▸ List.mem_map_of_mem SchemaNode.name hc')
    · have hne : ¬ c0.name = c.name := by
        intro hEq
        exact hmem0 (hEq ▸ List.mem_map_of_mem SchemaNode.name hcr)
      rw [specAssembled]
      have hskip : ∀ l : List (String × JSValue), (∀ kv ∈ l, kv.1 = c0.name) →
          (l ++ specAssembled pp obj rest).find? (fun p => p.1 == c.name)
            = (specAssembled pp obj rest).find? (fun p => p.1 == c.name) := by
        intro l hl
        refine find?_append_none _ _ _ ?_
        rw [List.find?_eq_none]
        intro kv hkv
        simp only [beq_iff_eq]
        rw [hl kv hkv]
        exact hne
      rw [hskip _ ?_, ih hnodup' c hcr]
      intro kv hkv
      cases hp : parseNode pp c0 (obj.getProp c0.name) with
      | ok val =>
        rw [hp] at hkv
        dsimp only at hkv
        cases hu : val.isUndef with
        | true => rw [if_pos hu] at hkv; simp at hkv
        | false =>
          rw [if_neg (by simp [hu])] at hkv
          simp only [List.mem_singleton] at hkv
          rw [hkv]
      | error e => rw [hp] at hkv; dsimp only at hkv; simp at hkv

/-- Pointwise-equal child parses give the same claimed error list and
assembly. -/
theorem spec_congr (pp : Option String) (y v : JSValue) :
    ∀ cs : List SchemaNode,
      (∀ c ∈ cs, parseNode pp c (y.getProp c.name) = parseNode pp c (v.getProp c.name)) →
      specChildErrors pp y cs = specChildErrors pp v cs
      ∧ specAssembled pp y cs = specAssembled pp v cs := by
  intro cs
  induction cs with
  | nil => intro _; exact ⟨rfl, rfl⟩
  | cons c rest ih =>
    intro hpt
    have h0 := hpt c (by simp)
    obtain ⟨h1, h2⟩ := ih (fun c' hc' => hpt c' (List.mem_cons_of_mem c hc'))
    constructor
    · rw [specChildErrors, specChildErrors, h0, h1]
    · rw [specAssembled, specAssembled, h0, h2]

/-- Schema nodes of the idempotence-stable fragment the amended claim
describes: no custom cast hooks (neither the node-level settings `cast`
nor the root-level constructor `cast`), every leaf of one single built-in
type (no union lists), and nested nodes with the dot-free, duplicate-free
child names JavaScript object keys provide. -/
inductive Plain : SchemaNode → Prop where
  | leaf (name : String) (t : String) (raw : RawSettings) (rv : Option Validator)
      (hcast : raw.cast = none)
      (ht : t = "String" ∨ t = "Number" ∨ t = "Boolean") :
      Plain (.mk name (.single t) raw [] none rv)
  | nested (name : String) (tp : TypeSpec) (raw : RawSettings)
      (children : List SchemaNode) (rv : Option Validator)
      (hne : children ≠ [])
      (hdot : ∀ c ∈ children, ('.' : Char) ∉ c.name.data)
      (hnodup : (children.map SchemaNode.name).Nodup)
      (hplain : ∀ c ∈ children, Plain c) :
      Plain (.mk name tp raw children none rv)

/-- The hook-free parse of a `Plain` node is stable on its own success
value. -/
theorem parseMain_stable : ∀ (node : SchemaNode), Plain node →
    ∀ (pp : Option String) (v y : JSValue),
      parseMain pp node v = .ok y → parseMain pp node y = .ok y := by
  intro node hp
  induction hp with
  | leaf name t raw rv hcast ht =>
    intro pp v y h
    simp only [parseMain, List.isEmpty_nil, if_true] at h ⊢
    exact parsePropertyOne_stable pp (.mk name (.single t) raw [] none rv) t hcast ht v y h
  | nested name tp raw children rv hne hdot hnodup hplain ih =>
    intro pp v y h
    have hiE : ¬ children.isEmpty = true := by
      cases children with
      | nil => exact absurd rfl hne
      | cons a l => simp
    simp only [parseMain] at h ⊢
    rw [if_neg hiE] at h ⊢
    rw [show (parseNodeList (some (fullPathOf pp name)) children)
      = (parseNodeList (some (fullPathOf pp name))
          (SchemaNode.mk name tp raw children none rv).children) from rfl] at h ⊢
    rw [runChildren_spec (.mk name tp raw children none rv)
      (some (fullPathOf pp name)) v hdot hnodup] at h
    rw [runChildren_spec (.mk name tp raw children none rv)
      (some (fullPathOf pp name)) y hdot hnodup]
    rw [specNested] at h
    split at h
    · rename_i hearly
      injection h with h'
      subst h'
      rw [specNested, if_pos ⟨hearly.1, rfl⟩]
    · rename_i hearly
      dsimp only at h
      split at h
      · rename_i hempty
        injection h with h'
        have hnil : (match structureValidation (.mk name tp raw children none rv) v with
            | .ok _ => ([] : List JsError)
            | .error e => specContribution e)
            ++ specChildErrors (some (fullPathOf pp name)) v children = [] := by
          rw [← List.isEmpty_iff]
          exact hempty
        obtain ⟨hsnil, hcnil⟩ := List.append_eq_nil.mp hnil
        have hok := specChildErrors_nil (some (fullPathOf pp name)) v children hcnil
        have hpt : ∀ c ∈ children,
            parseNode (some (fullPathOf pp name)) c
              ((JSValue.obj (specAssembled (some (fullPathOf pp name)) v children)).getProp c.name)
            = parseNode (some (fullPathOf pp name)) c (v.getProp c.name) := by
          intro c hc
          obtain ⟨val, hval⟩ := hok c hc
          have hlook := specAssembled_lookup (some (fullPathOf pp name)) v children hnodup c hc
          rw [hval] at hlook
          dsimp only at hlook
          have hgp : (JSValue.obj (specAssembled (some (fullPathOf pp name)) v children)).getProp
              c.name = if val.isUndef = true then .undef else val := by
            rw [show (JSValue.obj (specAssembled (some (fullPathOf pp name)) v children)).getProp
                c.name
              = (((specAssembled (some (fullPathOf pp name)) v children).find?
                  (fun p => p.1 == c.name)).map Prod.snd).getD .undef from rfl]
            rw [hlook]
            cases hu : val.isUndef with
            | true => rw [if_pos rfl, if_pos rfl]; rfl
            | false => rw [if_neg (by simp), if_neg (by simp)]; rfl
          have hstab := ih c hc (some (fullPathOf pp name)) (v.getProp c.name) val
            (by rw [← parseNode_some_eq_main]; exact hval)
          have hstab2 : parseNode (some (fullPathOf pp name)) c val = .ok val := by
            rw [parseNode_some_eq_main]
            exact hstab
          cases hu : val.isUndef with
          | true =>
            have hvu : val = .undef := (isUndef_iff val).mp hu
            rw [hgp, if_pos hu, hval, ← hvu]
            exact hstab2
          | false =>
            rw [hgp, if_neg (by simp [hu]), hval]
            exact hstab2
        obtain ⟨hErrsEq, hAsmEq⟩ := spec_congr (some (fullPathOf pp name))
          (JSValue.obj (specAssembled (some (fullPathOf pp name)) v children)) v children hpt
        subst h'
        rw [specNested, if_neg (fun hcon => absurd hcon.2 (by simp [JSValue.isUndef]))]
        dsimp only
        simp only [SchemaNode.children]
        have hkeys : ∀ kv ∈ specAssembled (some (fullPathOf pp name)) v children,
            kv.1 ∈ (SchemaNode.mk name tp raw children none rv).ownPaths := by
          intro kv hkv
          obtain ⟨c, hc, h1, _, _⟩ :=
            specAssembled_mem (some (fullPathOf pp name)) v children kv hkv
          rw [h1]
          exact List.mem_map_of_mem SchemaNode.name hc
        have hdotp : ∀ p ∈ (SchemaNode.mk name tp raw children none rv).ownPaths,
            ('.' : Char) ∉ p.data := by
          intro p hpm
          obtain ⟨c, hc, hcp⟩ := List.mem_map.mp hpm
          rw [← hcp]
          exact hdot c hc
        rw [structureValidation_obj_ok (.mk name tp raw children none rv)
          (specAssembled (some (fullPathOf pp name)) v children) hdotp hkeys]
        dsimp only
        rw [hErrsEq, hcnil]
        rw [hAsmEq]
        rfl
      · exact absurd h (by simp)

/-- C6, counterexample.  Both a custom node-level cast and a union type
with `autoCast` break idempotence: the `Number` leaf with a cast that
increments numbers maps `5` to `6` but `6` to `7`; the `[Number, Boolean]`
union with `autoCast: true` maps `"abc"` to `true` via the Boolean
candidate, but re-parsing `true` resolves via the Number candidate to `1`.
In both cases `parse` succeeds on `x` yet `parse (parse x) ≠ parse x`. -/
theorem claim_C6_counterexample :
    Schema.parse (.mk "n" (.single "Number")
        { cast := some (fun v => match v with | .num n => .num (n + 1) | v => v) }
        [] none none) (.num 5)
      = .ok (.num 6)
    ∧ Schema.parse (.mk "n" (.single "Number")
        { cast := some (fun v => match v with | .num n => .num (n + 1) | v => v) }
        [] none none) (.num 6)
      = .ok (.num 7)
    ∧ JSValue.num 7 ≠ JSValue.num 6
    ∧ Schema.parse (.mk "u" (.union ["Number", "Boolean"]) { autoCast := some true }
        [] none none) (.str "abc")
      = .ok (.bool true)
    ∧ Schema.parse (.mk "u" (.union ["Number", "Boolean"]) { autoCast := some true }
        [] none none) (.bool true)
      = .ok (.num 1)
    ∧ JSValue.num 1 ≠ JSValue.bool true :=
  ⟨rfl, rfl, by simp, rfl, rfl, by simp⟩

/-- C6, amended.  For every schema in the stable fragment — no custom cast
hooks (node-level or root-level), every leaf a single built-in type
(String, Number or Boolean; no union lists), JavaScript's dot-free
duplicate-free child names — `parse` is idempotent on its own output:
whenever `parse x` succeeds with `y`, `parse y` succeeds with `y`. -/
theorem claim_C6 (node : SchemaNode) (hp : Plain node) (v y : JSValue)
    (h : Schema.parse node v = .ok y) : Schema.parse node y = .ok y := by
  rw [Schema.parse, parseNode_none_eq_main] at h ⊢
  cases hm : parseMain none node v with
  | error e =>
    rw [hm] at h
    exact absurd h (by simp)
  | ok v1 =>
    rw [hm] at h
    dsimp only at h
    have hrc : node.rcast = none := by
      cases hp with
      | leaf name t raw rv hcast ht => rfl
      | nested name tp raw children rv hne hdot hnodup hplain => rfl
    rw [hrc] at h
    dsimp only at h
    cases hnv : (match node.rvalidate with | some f => f v1 | none => none) with
    | some e =>
      rw [hnv] at h
      exact absurd h (by simp)
    | none =>
      rw [hnv] at h
      injection h with h'
      subst h'
      have hmain := parseMain_stable node hp none v v1 hm
      rw [hmain]
      dsimp only
      rw [hrc]
      dsimp only
      rw [hnv]

/-- C6, witness: on the stable-fragment schema
`{ a: { type: Number, required: false }, b: String }`, re-parsing the
sanitized output `{ b: "x" }` returns it unchanged. -/
theorem claim_C6_witness :
    Schema.parse (SchemaNode.mk "" (.single "Object") {}
        [.mk "a" (.single "Number") { required := some (.flag false) } [] none none,
         .mk "b" (.single "String") {} [] none none] none none)
      (.obj [("b", .str "x")])
      = .ok (.obj [("b", .str "x")]) := by
  have hp : Plain (SchemaNode.mk "" (.single "Object") {}
      [.mk "a" (.single "Number") { required := some (.flag false) } [] none none,
       .mk "b" (.single "String") {} [] none none] none none) := by
    refine Plain.nested _ _ _ _ _ (by simp) (by decide) (by decide) ?_
    intro c hc
    simp only [List.mem_cons, List.mem_singleton] at hc
    rcases hc with rfl | rfl | h
    · exact Plain.leaf "a" "Number" _ none rfl (Or.inr (Or.inl rfl))
    · exact Plain.leaf "b" "String" _ none rfl (Or.inl rfl)
    · exact absurd h (by simp)
  exact claim_C6 _ hp (.obj [("b", .str "x")]) (.obj [("b", .str "x")]) rfl

end SchemaValidator
